import Mathlib

/-!
# video-listing: the duration formatter and the pagination/search state machine

A shallow embedding of `src/main.js`.  JavaScript strings are lists of characters, the
mutable `state` object and the children of `#video-list` are threaded explicitly, and an
`async` function is split at its `await` into the part that runs up to the suspension and
the part that runs when the awaited promise settles.
-/

namespace VideoListing

/-- JavaScript strings, as character sequences. -/
abbrev Str := List Char

/-! ## JavaScript numbers, as far as `parseInt` and `toString` need them -/

/-- The Number values `parseInt` can return on a run of decimal digits: a non-negative
integral double, carried by its exact value, or `+Infinity`. -/
inductive JSNumber
  | fin (v : Nat)
  | inf
  deriving DecidableEq, Repr

/-- Binary logarithm by repeated halving, `fuel` bounding the number of halvings. -/
def log2Aux : Nat → Nat → Nat
  | 0, _ => 0
  | fuel + 1, n => if n < 2 then 0 else log2Aux fuel (n / 2) + 1

/-- The position of the leading bit of `n` (`0` for `n = 0`). -/
def ilog2 (n : Nat) : Nat := log2Aux n n

/-- The double nearest to the natural number `n` (round half to even on the 53-bit
significand), `+Infinity` once the rounded value reaches `2^1024`, that is once its binary
logarithm reaches 1024. -/
def roundToDouble (n : Nat) : JSNumber :=
  if n < 2 ^ 53 then JSNumber.fin n
  else
    let sh := ilog2 n - 52
    let q := n / 2 ^ sh
    let r := n % 2 ^ sh
    let half := 2 ^ (sh - 1)
    let q1 := if half < r ∨ (r = half ∧ q % 2 = 1) then q + 1 else q
    if 1024 ≤ ilog2 (q1 * 2 ^ sh) then JSNumber.inf else JSNumber.fin (q1 * 2 ^ sh)

/-- Decimal digits of `n`, most significant first, in front of `acc`. -/
def digitsAux : Nat → Nat → Str → Str
  | 0, _, acc => acc
  | fuel + 1, n, acc =>
    if n < 10 then Nat.digitChar n :: acc
    else digitsAux fuel (n / 10) (Nat.digitChar (n % 10) :: acc)

/-- The decimal numeral of `n`, without leading zeros (`"0"` for zero). -/
def decimal (n : Nat) : Str := digitsAux (n + 1) n []

/-- The value of a run of decimal digits, read left to right. -/
def digitsValue (ds : Str) : Nat :=
  ds.foldl (fun acc c => 10 * acc + (c.toNat - 48)) 0

/-- Number of decimal digits of `n`. -/
def numDigits (n : Nat) : Nat := (decimal n).length

/-- The two neighbours of `x` that have at most `k` significant decimal digits. -/
def roundings (x k : Nat) : Nat × Nat :=
  let p := 10 ^ (numDigits x - k)
  (x / p * p, (x / p + 1) * p)

/-- The candidate with `k` significant digits whose double is `x`, if there is one; of two,
the nearer to `x`, and on a tie the one with the even last digit. -/
def pickRounding (x k : Nat) : Option Nat :=
  let lo := (roundings x k).1
  let hi := (roundings x k).2
  let okLo := decide (roundToDouble lo = JSNumber.fin x)
  let okHi := decide (roundToDouble hi = JSNumber.fin x)
  if okLo && okHi then
    if x - lo < hi - x then some lo
    else if hi - x < x - lo then some hi
    else if (lo / 10 ^ (numDigits x - k)) % 2 = 0 then some lo else some hi
  else if okLo then some lo
  else if okHi then some hi
  else none

/-- The decimal number with the fewest significant digits whose double is `x`
(`Number::toString`, step 5). -/
def shortestDecimal (x : Nat) : Nat :=
  (((List.range (numDigits x)).map (· + 1)).findSome? (pickRounding x)).getD x

/-- Drop the trailing zeros of a digit string. -/
def stripTrailingZeros (ds : Str) : Str :=
  (ds.reverse.dropWhile (· == '0')).reverse

/-- `Number.prototype.toString()` on the values of `JSNumber`: plain digits up to 21
integer digits, exponent form beyond. -/
def numberToString : JSNumber → Str
  | JSNumber.inf => "Infinity".toList
  | JSNumber.fin x =>
    let v := shortestDecimal x
    if numDigits v ≤ 21 then decimal v
    else
      match stripTrailingZeros (decimal v) with
      | [] => decimal v
      | [d] => d :: ("e+".toList ++ decimal (numDigits v - 1))
      | d :: ds => d :: '.' :: (ds ++ ("e+".toList ++ decimal (numDigits v - 1)))

/-- `hours > 0`. -/
def JSNumber.isPositive : JSNumber → Bool
  | JSNumber.fin v => decide (0 < v)
  | JSNumber.inf => true

/-- `String.prototype.padStart(targetLength, "0")`. -/
def padStart (s : Str) (targetLength : Nat) : Str :=
  List.replicate (targetLength - s.length) '0' ++ s

/-! ## Duration formatter -/

/-- The values `formatDuration` may be handed. -/
inductive JSValue
  | undefined
  | null
  | boolean (b : Bool)
  | number (n : Int)
  | string (s : Str)
  | object
  deriving DecidableEq, Repr

/-- One optional component `(?:(\d+)U)?` of the pattern at the head of `cs`: the captured
digits and the rest of the input.  `\d+` is greedy and the character after the longest run
of digits is not a digit, so the component matches exactly when that run is non-empty and
is followed by the unit letter. -/
def optComponent (u : Char) (cs : Str) : Option Str × Str :=
  match cs.span Char.isDigit with
  | (ds, c :: rest) => if ds ≠ [] ∧ c = u then (some ds, rest) else (none, cs)
  | (_, []) => (none, cs)

/-- The captures of `/PT(?:(\d+)H)?(?:(\d+)M)?(?:(\d+)S)?/` matched at the head of the
input. -/
def matchHere : Str → Option (Option Str × Option Str × Option Str)
  | 'P' :: 'T' :: cs =>
    let h := optComponent 'H' cs
    let m := optComponent 'M' h.2
    let s := optComponent 'S' m.2
    some (h.1, m.1, s.1)
  | _ => none

/-- The method `isoString.match(/PT(?:(\d+)H)?(?:(\d+)M)?(?:(\d+)S)?/)`: the leftmost
position where the pattern matches; the pattern is not anchored. -/
def regexMatch : Str → Option (Option Str × Option Str × Option Str)
  | [] => none
  | c :: cs =>
    match matchHere (c :: cs) with
    | some m => some m
    | none => regexMatch cs

/-- `parseInt(g || 0, 10)` on a capture: an absent capture is `0`, and a run of digits is
read exactly and then rounded to the nearest double, which is what a Number can hold. -/
def parseIntCapture : Option Str → JSNumber
  | none => JSNumber.fin 0
  | some ds => roundToDouble (digitsValue ds)

/-- The record returned by `parseISODuration`. -/
structure Duration where
  hours : JSNumber
  minutes : JSNumber
  seconds : JSNumber
  deriving DecidableEq, Repr

/-- The all-zero duration. -/
def Duration.zero : Duration :=
  ⟨JSNumber.fin 0, JSNumber.fin 0, JSNumber.fin 0⟩

/-- The function `parseISODuration(isoString)`. -/
def parseISODuration : JSValue → Duration
  | JSValue.string s =>
    if s = [] then Duration.zero
    else
      match regexMatch s with
      | none => Duration.zero
      | some (h, m, sec) => ⟨parseIntCapture h, parseIntCapture m, parseIntCapture sec⟩
  | _ => Duration.zero

/-- The function `formatDuration(isoString)`. -/
def formatDuration (isoString : JSValue) : Str :=
  let d := parseISODuration isoString
  let paddedSeconds := padStart (numberToString d.seconds) 2
  if d.hours.isPositive then
    numberToString d.hours ++ ':' :: (padStart (numberToString d.minutes) 2 ++ ':' :: paddedSeconds)
  else
    numberToString d.minutes ++ ':' :: paddedSeconds

/-- The digit runs of the components that the pattern reads right after `PT`, at the head
of `rest`: at most one for `H`, one for `M` and one for `S`, in this order. -/
def componentDigits (rest : Str) : List Str :=
  let h := optComponent 'H' rest
  let m := optComponent 'M' h.2
  let s := optComponent 'S' m.2
  [h.1, m.1, s.1].reduceOption

/-- The restricted form `PT[nH][nM][nS]` of the specification, as a test on the whole
string: `PT`, then each of the three components at most once and in this order, each a
non-empty run of digits and its unit letter, then nothing. -/
def isRestrictedForm : Str → Bool
  | 'P' :: 'T' :: cs =>
    decide ((optComponent 'S' (optComponent 'M' (optComponent 'H' cs).2).2).2 = [])
  | _ => false

/-! ## Strings of the search -/

/-- `s.startsWith(q)`. -/
def startsWith : Str → Str → Bool
  | _, [] => true
  | [], _ :: _ => false
  | c :: cs, d :: ds => c == d && startsWith cs ds

/-- `s.includes(q)`: `q` occurs in `s` at some position. -/
def includes : Str → Str → Bool
  | [], q => startsWith [] q
  | c :: cs, q => startsWith (c :: cs) q || includes cs q

/-- The text after the first occurrence of `PT` in a string, if `PT` occurs. -/
def afterFirstPT : Str → Option Str
  | [] => none
  | c :: cs => if startsWith (c :: cs) ['P', 'T'] then some (cs.drop 1) else afterFirstPT cs

/-- `String.prototype.toLowerCase` on strings whose cased letters are among `A` to `Z`.  The
method also lowers the other cased letters (`É`), which this definition leaves as they
are; only the closed scenarios below evaluate it, on such strings, and every other
statement is about whatever title and query are stored. -/
def toLowerCase (s : Str) : Str := s.map Char.toLower

/-- White space and line terminators, as `String.prototype.trim` sees them. -/
def isTrimmable (c : Char) : Bool :=
  let n := c.toNat
  (9 ≤ n && n ≤ 13) || n == 32 || n == 160 || n == 0x1680 || (0x2000 ≤ n && n ≤ 0x200A)
    || n == 0x2028 || n == 0x2029 || n == 0x202F || n == 0x205F || n == 0x3000 || n == 0xFEFF

/-- `String.prototype.trim`. -/
def trim (s : Str) : Str :=
  ((s.dropWhile isTrimmable).reverse.dropWhile isTrimmable).reverse

/-! ## Configuration, records, state and the displayed list -/

/-- The record `config`. -/
structure Config where
  defaultShimmerCount : Nat
  debounceDelay : Nat
  initialPage : Nat
  perPage : Nat
  scrollThreshold : Int

/-- The constants of `config`. -/
def config : Config where
  defaultShimmerCount := 6
  debounceDelay := 300
  initialPage := 1
  perPage := 10
  scrollThreshold := 300

/-- The part `video.items.snippet` of a record, as far as it is read here. -/
structure Snippet where
  title : Option Str
  deriving DecidableEq, Repr

/-- A video record of the server; `snippet` is `none` when `video?.items?.snippet` is
missing. -/
structure Video where
  id : Str
  snippet : Option Snippet
  deriving DecidableEq, Repr

/-- The object `state`; `currentPage` is the integer its Number holds. -/
structure AppState where
  currentPage : Nat
  isLoading : Bool
  hasMoreVideos : Bool
  searchQuery : Str
  videos : List Video
  deriving DecidableEq, Repr

/-- The property `style.display` of a card: never assigned, `"block"` or `"none"`. -/
inductive Display
  | unset
  | block
  | none
  deriving DecidableEq, Repr

/-- A card is shown unless its `display` is `"none"`. -/
def Display.isVisible : Display → Bool
  | Display.none => false
  | _ => true

/-- The children `#video-list` can have: a shimmer placeholder, the spinner
`elements.loader`, the paragraph `elements.noResults`, the paragraph written by
`handleError`, the paragraph `No videos found.` of `renderVideos`, and the `<a>` card of a
video with its `dataset.title` and `style.display`. -/
inductive Node
  | shimmer
  | loader
  | noResults
  | errorMessage
  | emptyMessage
  | card (title : Str) (display : Display)
  deriving DecidableEq, Repr

/-- The asynchronous function that awaits a fetch. -/
inductive Caller
  | initializeApp
  | loadMoreVideos
  deriving DecidableEq, Repr

/-- A fetch that has been issued and has not settled, with the function suspended on it. -/
structure Pending where
  caller : Caller
  page : Nat
  deriving DecidableEq, Repr

/-- How a fetch settles: the promise of `fetch` rejects, the response is not `ok`,
`response.json()` rejects, or the body is read and `result?.data?.data` is a list of
records or missing. -/
inductive FetchResult
  | rejected
  | httpStatus (status : Nat)
  | invalidJson
  | ok (data : Option (List Video))
  deriving DecidableEq, Repr

/-- Everything the handlers read and write: `state`, the children of
`elements.videoList`, the fetches that have not settled, and the pages requested so far,
oldest first. -/
structure World where
  state : AppState
  videoList : List Node
  pending : List Pending
  requests : List Nat
  deriving DecidableEq, Repr

/-- The state when the script has been loaded, before `DOMContentLoaded`. -/
def initialWorld : World where
  state := ⟨config.initialPage, false, true, [], []⟩
  videoList := []
  pending := []
  requests := []

/-- `parent.appendChild(node)` for one of the two single elements: a node that is already
a child is moved to the end. -/
def appendChild (children : List Node) (node : Node) : List Node :=
  children.erase node ++ [node]

/-- `parent.removeChild(node)`. -/
def removeChild (children : List Node) (node : Node) : List Node :=
  children.erase node

/-- The function `setLoadingState(isLoading, isInitial)`. -/
def setLoadingState (isLoading isInitial : Bool) (w : World) : World :=
  let w1 := { w with state := { w.state with isLoading := isLoading } }
  if isLoading then
    if isInitial then
      { w1 with videoList := List.replicate config.defaultShimmerCount Node.shimmer }
    else
      { w1 with videoList := appendChild w1.videoList Node.loader }
  else if w1.videoList.contains Node.loader then
    { w1 with videoList := removeChild w1.videoList Node.loader }
  else w1

/-- The function `handleError(error)`. -/
def handleError (w : World) : World :=
  { w with
    videoList := [Node.errorMessage]
    state := { w.state with isLoading := false, hasMoreVideos := false } }

/-- The function `createVideoElement(video)`: `none` for `null`. -/
def createVideoElement (video : Video) : Option Node :=
  match video.snippet with
  | Option.none => Option.none
  | some snippet =>
    match snippet.title with
    | Option.none => some (Node.card [] Display.unset)
    | some title => some (Node.card (toLowerCase title) Display.unset)

/-- The function `renderVideos(videos, append)`. -/
def renderVideos (videos : List Video) (append : Bool) (w : World) : World :=
  let w1 := if !append then { w with videoList := [] } else w
  if videos.length = 0 then
    if !append then { w1 with videoList := [Node.emptyMessage] } else w1
  else
    { w1 with videoList := w1.videoList ++ videos.filterMap createVideoElement }

/-- The body of the `forEach` in `filterVideos`: only an `<a>` child is touched. -/
def applyFilter (query : Str) : Node → Node
  | Node.card title _ =>
    Node.card title (if includes title query then Display.block else Display.none)
  | node => node

/-- The contribution of one child to `visibleCount`. -/
def matchesQuery (query : Str) : Node → Bool
  | Node.card title _ => includes title query
  | _ => false

/-- The function `filterVideos(query)`. -/
def filterVideos (query : Str) (w : World) : World :=
  let w1 := { w with state := { w.state with searchQuery := query } }
  let visibleCount := w1.videoList.countP (matchesQuery query)
  let w2 := { w1 with videoList := w1.videoList.map (applyFilter query) }
  if visibleCount = 0 ∧ query ≠ [] then
    if !w2.videoList.contains Node.noResults then
      { w2 with videoList := w2.videoList ++ [Node.noResults] }
    else w2
  else
    if w2.videoList.contains Node.noResults then
      { w2 with videoList := removeChild w2.videoList Node.noResults }
    else w2

/-- The function `searchVideos(event)`, on `event.target.value`. -/
def searchVideos (value : Str) (w : World) : World :=
  filterVideos (trim (toLowerCase value)) w

/-- The function `fetchVideos(page)` up to `await fetch(...)`: the loading state is set,
the request goes out, and `caller` is suspended on it. -/
def fetchVideosSuspend (page : Nat) (caller : Caller) (w : World) : World :=
  let w1 := setLoadingState true (page == 1) w
  { w1 with requests := w1.requests ++ [page], pending := w1.pending ++ [⟨caller, page⟩] }

/-- The function `fetchVideos(page)` from the settlement of the fetch on: the value it
resolves to and the state it leaves.  Between `await fetch(...)` and
`await response.json()` it neither reads nor writes `state` or the list, so the two
suspensions are taken as one. -/
def fetchVideosResume (result : FetchResult) (w : World) : List Video × World :=
  match result with
  | FetchResult.ok data =>
    let newVideos := data.getD []
    let w1 :=
      if newVideos.length < config.perPage then
        { w with state := { w.state with hasMoreVideos := false } }
      else w
    (newVideos, setLoadingState false false w1)
  | _ => ([], setLoadingState false false (handleError w))

/-- The statement `n++` on a Number that holds the integer `n`: the sum `n + 1` rounded to
the nearest double.  Below `2^53` that is `n + 1`; at `2^53` it is `2^53` again.  The sum of
a finite Number and 1 is never `+Infinity`, so the last case leaves `n`. -/
def increment (n : Nat) : Nat :=
  match roundToDouble (n + 1) with
  | JSNumber.fin v => v
  | JSNumber.inf => n

/-- The function `loadMoreVideos()` up to its `await`. -/
def loadMoreVideos (w : World) : World :=
  if w.state.isLoading || !w.state.hasMoreVideos then w
  else
    let w1 := { w with state := { w.state with currentPage := increment w.state.currentPage } }
    fetchVideosSuspend w1.state.currentPage Caller.loadMoreVideos w1

/-- The function `loadMoreVideos()` after its `await`, with the value of `fetchVideos`. -/
def loadMoreVideosResume (newVideos : List Video) (w : World) : World :=
  if 0 < newVideos.length then
    let w1 := { w with state := { w.state with videos := w.state.videos ++ newVideos } }
    let w2 := renderVideos newVideos true w1
    if w2.state.searchQuery ≠ [] then filterVideos w2.state.searchQuery w2 else w2
  else w

/-- The function `initializeApp()` up to its `await`; the two listeners it registers are
the events `Event.scroll` and `Event.input` below. -/
def initializeApp (w : World) : World :=
  fetchVideosSuspend w.state.currentPage Caller.initializeApp w

/-- The function `initializeApp()` after its `await`, with the value of `fetchVideos`. -/
def initializeAppResume (initialVideos : List Video) (w : World) : World :=
  renderVideos initialVideos false { w with state := { w.state with videos := initialVideos } }

/-- The function `handleScroll()`, on the three numbers read from `document.documentElement`. -/
def handleScroll (scrollTop scrollHeight clientHeight : Int) (w : World) : World :=
  if w.state.isLoading || !w.state.hasMoreVideos then w
  else if scrollTop + clientHeight ≥ scrollHeight - config.scrollThreshold then loadMoreVideos w
  else w

/-- The `i`-th outstanding fetch settles with `result`: `fetchVideos` runs to its end and
the function that awaited it runs on in the same turn.  Nothing happens when there is no
such fetch. -/
def settle (i : Nat) (result : FetchResult) (w : World) : World :=
  match w.pending.get? i with
  | Option.none => w
  | some p =>
    let r := fetchVideosResume result { w with pending := w.pending.eraseIdx i }
    match p.caller with
    | Caller.initializeApp => initializeAppResume r.1 r.2
    | Caller.loadMoreVideos => loadMoreVideosResume r.1 r.2

/-- What the event loop can run once `initializeApp` has started: the debounced scroll
listener, a call of `loadMoreVideos`, the debounced input listener, and the settlement of
an outstanding fetch. -/
inductive Event
  | scroll (scrollTop scrollHeight clientHeight : Int)
  | loadMore
  | input (value : Str)
  | settled (i : Nat) (result : FetchResult)
  deriving DecidableEq, Repr

/-- One turn of the event loop: the handler runs to its first suspension or to its end. -/
def step (w : World) : Event → World
  | Event.scroll t h c => handleScroll t h c w
  | Event.loadMore => loadMoreVideos w
  | Event.input value => searchVideos value w
  | Event.settled i result => settle i result w

/-- The state after `DOMContentLoaded` and then the events `evs`, in order. -/
def run (evs : List Event) : World :=
  evs.foldl step (initializeApp initialWorld)

/-- A record with the given title. -/
def videoTitled (title : String) : Video := ⟨[], some ⟨some title.toList⟩⟩

/-- The cards among the children, in order. -/
def cards (children : List Node) : List (Str × Display) :=
  children.filterMap fun
    | Node.card title display => some (title, display)
    | _ => Option.none

/-- The string `q` is a substring of `s`. -/
def OccursIn (q s : Str) : Prop := ∃ pre suf, s = pre ++ (q ++ suf)

/-- The number of times the paragraph `elements.noResults` is among the children. -/
def noResultsCount (children : List Node) : Nat := children.count Node.noResults

/-- The three cards of the scenario in the specification, as `renderVideos` creates them. -/
def scenarioList : World :=
  renderVideos [videoTitled "Music Mix", videoTitled "News", videoTitled "Live Music"] false
    initialWorld

/-- At most one fetch is outstanding, and `isLoading` is true exactly when one is. -/
def OneFetch (w : World) : Prop :=
  w.pending.length ≤ 1 ∧ (w.state.isLoading = true ↔ w.pending.length = 1)

/-- Every card is shown exactly when its stored title contains `state.searchQuery`. -/
def FilterApplied (w : World) : Prop :=
  ∀ c ∈ cards w.videoList, c.2.isVisible = true ↔ includes c.1 w.state.searchQuery = true

/-- A full page: ten records. -/
def fullPage : List Video := List.replicate 10 (videoTitled "News")

/-- The duration string `PT{h}H{m}M{s}S`, the three counts written in decimal. -/
def isoDuration (h m s : Nat) : Str :=
  'P' :: 'T' :: (decimal h ++ 'H' :: (decimal m ++ 'M' :: (decimal s ++ ['S'])))

/-- A count below 100 written with exactly two digits. -/
def twoDigit (n : Nat) : Str := [Nat.digitChar (n / 10), Nat.digitChar (n % 10)]

/-- The clock text the specification promises: `h:mm:ss` with hours, `m:ss` without. -/
def clockText (h m s : Nat) : Str :=
  if 0 < h then decimal h ++ ':' :: (twoDigit m ++ ':' :: twoDigit s)
  else decimal m ++ ':' :: twoDigit s

/-! ## Facts about decimal numerals -/

theorem digitChar_isDigit (n : Nat) (h : n < 10) : (Nat.digitChar n).isDigit = true := by
  interval_cases n <;> decide

theorem digitChar_value (n : Nat) (h : n < 10) : (Nat.digitChar n).toNat - 48 = n := by
  interval_cases n <;> decide

theorem digitsAux_value (fuel : Nat) : ∀ (n : Nat) (acc : Str), n < fuel →
    (digitsAux fuel n acc).foldl (fun a c => 10 * a + (c.toNat - 48)) 0
      = acc.foldl (fun a c => 10 * a + (c.toNat - 48)) n := by
  induction fuel with
  | zero => intro n acc h; omega
  | succ f ih =>
    intro n acc h
    unfold digitsAux
    split
    · next h10 => simp [List.foldl, digitChar_value n h10]
    · next h10 =>
      rw [ih (n / 10) _ (by omega)]
      simp only [List.foldl]
      rw [digitChar_value (n % 10) (Nat.mod_lt _ (by decide))]
      congr 1
      omega

theorem digitsValue_decimal (n : Nat) : digitsValue (decimal n) = n := by
  unfold digitsValue decimal
  rw [digitsAux_value (n + 1) n [] (by omega)]
  rfl

theorem digitsAux_allDigits (fuel : Nat) : ∀ (n : Nat) (acc : Str),
    (∀ c ∈ acc, c.isDigit = true) → ∀ c ∈ digitsAux fuel n acc, c.isDigit = true := by
  induction fuel with
  | zero => intro n acc h; simpa [digitsAux] using h
  | succ f ih =>
    intro n acc h
    unfold digitsAux
    split
    · next h10 =>
      intro c hc
      rcases List.mem_cons.1 hc with rfl | hc
      · exact digitChar_isDigit n h10
      · exact h c hc
    · next h10 =>
      apply ih
      intro c hc
      rcases List.mem_cons.1 hc with rfl | hc
      · exact digitChar_isDigit _ (Nat.mod_lt _ (by decide))
      · exact h c hc

theorem decimal_allDigits (n : Nat) : ∀ c ∈ decimal n, c.isDigit = true :=
  digitsAux_allDigits (n + 1) n [] (by simp)

theorem digitsAux_ne_nil (fuel : Nat) : ∀ (n : Nat) (acc : Str),
    0 < fuel → digitsAux fuel n acc ≠ [] := by
  induction fuel with
  | zero => intro n acc h; omega
  | succ f ih =>
    intro n acc _
    unfold digitsAux
    split
    · simp
    · next h10 =>
      cases f with
      | zero => simp [digitsAux]
      | succ g => exact ih _ _ (by omega)

theorem decimal_ne_nil (n : Nat) : decimal n ≠ [] :=
  digitsAux_ne_nil (n + 1) n [] (by omega)

theorem digitsAux_length (fuel : Nat) : ∀ (n e : Nat) (acc : Str), n < 10 ^ e → 0 < e →
    (digitsAux fuel n acc).length ≤ e + acc.length := by
  induction fuel with
  | zero => intro n e acc _ _; simp [digitsAux]
  | succ f ih =>
    intro n e acc hn he
    unfold digitsAux
    split
    · simp; omega
    · next h10 =>
      obtain ⟨e1, rfl⟩ : ∃ e1, e = e1 + 1 := ⟨e - 1, by omega⟩
      have he1 : 0 < e1 := by
        rcases Nat.eq_zero_or_pos e1 with h0 | h0
        · subst h0; simp at hn; omega
        · exact h0
      have hdiv : n / 10 < 10 ^ e1 := by
        rw [Nat.div_lt_iff_lt_mul (by decide)]
        rw [pow_succ] at hn
        exact hn
      have := ih (n / 10) e1 (Nat.digitChar (n % 10) :: acc) hdiv he1
      simp at this ⊢
      omega

theorem numDigits_le (n e : Nat) (hn : n < 10 ^ e) (he : 0 < e) : numDigits n ≤ e := by
  have := digitsAux_length (n + 1) n e [] hn he
  simpa [numDigits, decimal] using this

/-! ## Facts about doubles -/

theorem roundToDouble_small (n : Nat) (h : n < 2 ^ 53) : roundToDouble n = JSNumber.fin n := by
  unfold roundToDouble
  rw [if_pos h]

theorem log2Aux_eq (fuel : Nat) : ∀ n : Nat, n ≤ fuel → log2Aux fuel n = Nat.log2 n := by
  induction fuel with
  | zero =>
    intro n h
    have : n = 0 := by omega
    subst this
    simp [log2Aux, Nat.log2]
  | succ f ih =>
    intro n h
    unfold log2Aux
    rw [Nat.log2]
    split
    · next h2 => rw [if_neg (by omega)]
    · next h2 =>
      rw [if_pos (by omega), ih (n / 2) (by omega)]

theorem ilog2_eq (n : Nat) : ilog2 n = Nat.log2 n := log2Aux_eq n n (le_refl n)

theorem roundToDouble_large (n x : Nat) (h : 2 ^ 53 ≤ n) (hx : roundToDouble n = JSNumber.fin x) :
    2 ^ 53 ≤ x := by
  unfold roundToDouble at hx
  rw [if_neg (by omega)] at hx
  simp only [ilog2_eq] at hx
  have hn0 : n ≠ 0 := by
    intro h0
    subst h0
    simp at h
  have hlog : 2 ^ Nat.log2 n ≤ n := Nat.log2_self_le hn0
  have h53 : 53 ≤ Nat.log2 n := by
    rw [Nat.le_log2 hn0]
    exact h
  have hq : 2 ^ 52 ≤ n / 2 ^ (Nat.log2 n - 52) := by
    rw [Nat.le_div_iff_mul_le (Nat.pos_pow_of_pos _ (by decide))]
    rw [← pow_add]
    have : 52 + (Nat.log2 n - 52) = Nat.log2 n := by omega
    rw [this]
    exact hlog
  have hpow : 2 ^ 53 ≤ 2 ^ 52 * 2 ^ (Nat.log2 n - 52) := by
    rw [← pow_add]
    exact Nat.pow_le_pow_right (by decide) (by omega)
  have key : ∀ q1 : Nat, n / 2 ^ (Nat.log2 n - 52) ≤ q1 →
      (if 1024 ≤ Nat.log2 (q1 * 2 ^ (Nat.log2 n - 52)) then JSNumber.inf
        else JSNumber.fin (q1 * 2 ^ (Nat.log2 n - 52))) = JSNumber.fin x → 2 ^ 53 ≤ x := by
    intro q1 hq1 hq
    split at hq
    · exact JSNumber.noConfusion hq
    · injection hq with hq
      rw [← hq]
      exact le_trans hpow (Nat.mul_le_mul_right _ (by omega))
  exact key _ (by split <;> omega) hx

theorem roundToDouble_eq_small (v x : Nat) (hx : x < 2 ^ 53)
    (h : roundToDouble v = JSNumber.fin x) : v = x := by
  by_cases hv : v < 2 ^ 53
  · rw [roundToDouble_small v hv] at h
    injection h
  · have := roundToDouble_large v x (by omega) h
    omega

theorem pickRounding_sound (x k v : Nat) (h : pickRounding x k = some v) :
    roundToDouble v = JSNumber.fin x := by
  unfold pickRounding at h
  simp only at h
  by_cases hlo : roundToDouble (roundings x k).1 = JSNumber.fin x <;>
    by_cases hhi : roundToDouble (roundings x k).2 = JSNumber.fin x <;>
    simp [hlo, hhi] at h
  · split at h
    · injection h with h; rw [← h]; exact hlo
    · split at h
      · injection h with h; rw [← h]; exact hhi
      · split at h
        · injection h with h; rw [← h]; exact hlo
        · injection h with h; rw [← h]; exact hhi
  · rw [← h]; exact hlo
  · rw [← h]; exact hhi

theorem shortestDecimal_small (x : Nat) (hx : x < 2 ^ 53) : shortestDecimal x = x := by
  unfold shortestDecimal
  cases hf : ((List.range (numDigits x)).map (· + 1)).findSome? (pickRounding x) with
  | none => rfl
  | some v =>
    obtain ⟨k, _, hk⟩ := List.exists_of_findSome?_eq_some hf
    exact roundToDouble_eq_small v x hx (pickRounding_sound x k v hk)

theorem numberToString_small (x : Nat) (hx : x < 2 ^ 53) :
    numberToString (JSNumber.fin x) = decimal x := by
  unfold numberToString
  simp only [shortestDecimal_small x hx]
  rw [if_pos]
  exact numDigits_le x 21 (lt_trans hx (by norm_num)) (by decide)

/-! ## The formatter on well-formed durations -/

theorem span_digits (ds : Str) (c : Char) (rest : Str) (hds : ∀ d ∈ ds, d.isDigit = true)
    (hc : c.isDigit = false) : (ds ++ c :: rest).span Char.isDigit = (ds, c :: rest) := by
  rw [List.span_eq_take_drop]
  induction ds with
  | nil => simp [List.takeWhile, List.dropWhile, hc]
  | cons d ds ih =>
    have hd : d.isDigit = true := hds d (List.mem_cons_self _ _)
    have := ih (fun e he => hds e (List.mem_cons_of_mem _ he))
    simp only [Prod.mk.injEq] at this ⊢
    rw [List.cons_append, List.takeWhile_cons, List.dropWhile_cons, if_pos hd, if_pos hd]
    exact ⟨by rw [this.1], this.2⟩

theorem optComponent_decimal (u : Char) (n : Nat) (rest : Str) (hu : u.isDigit = false) :
    optComponent u (decimal n ++ u :: rest) = (some (decimal n), rest) := by
  unfold optComponent
  rw [span_digits (decimal n) u rest (decimal_allDigits n) hu]
  simp [decimal_ne_nil]

theorem regexMatch_isoDuration (h m s : Nat) :
    regexMatch (isoDuration h m s) = some (some (decimal h), some (decimal m), some (decimal s)) := by
  unfold isoDuration regexMatch matchHere
  simp only [optComponent_decimal 'H' h _ (by decide), optComponent_decimal 'M' m _ (by decide),
    optComponent_decimal 'S' s _ (by decide)]

theorem padStart_decimal (n : Nat) (h : n ≤ 59) : padStart (decimal n) 2 = twoDigit n := by
  interval_cases n <;> decide

theorem parseISODuration_isoDuration (h m s : Nat) (hh : h < 2 ^ 53) (hm : m ≤ 59)
    (hs : s ≤ 59) :
    parseISODuration (JSValue.string (isoDuration h m s))
      = ⟨JSNumber.fin h, JSNumber.fin m, JSNumber.fin s⟩ := by
  simp only [parseISODuration]
  rw [if_neg (by simp [isoDuration]), regexMatch_isoDuration]
  simp only [parseIntCapture, digitsValue_decimal]
  rw [roundToDouble_small h hh, roundToDouble_small m (by omega), roundToDouble_small s (by omega)]

/-- C1 (amended): for every hour count `h` below `2^53` and all `m`, `s` in `[0,59]`,
`formatDuration` applied to `PT{h}H{m}M{s}S` returns `h:mm:ss` when `h > 0` and `m:ss`
when `h = 0`, minutes padded to two digits only in the first form, seconds always. -/
theorem formatDuration_isoDuration (h m s : Nat) (hh : h < 2 ^ 53) (hm : m ≤ 59)
    (hs : s ≤ 59) :
    formatDuration (JSValue.string (isoDuration h m s)) = clockText h m s := by
  unfold formatDuration clockText
  simp only [parseISODuration_isoDuration h m s hh hm hs]
  rw [numberToString_small h hh, numberToString_small m (by omega),
    numberToString_small s (by omega), padStart_decimal m hm, padStart_decimal s hs]
  by_cases h0 : 0 < h <;> simp [JSNumber.isPositive, h0]

/-- C1, witness: `PT1H5M7S` is shown as `1:05:07`. -/
theorem formatDuration_isoDuration_witness :
    (1 < 2 ^ 53 ∧ 5 ≤ 59 ∧ 7 ≤ 59) ∧
      formatDuration (JSValue.string (isoDuration 1 5 7)) = clockText 1 5 7 :=
  ⟨by decide, formatDuration_isoDuration 1 5 7 (by decide) (by decide) (by decide)⟩

/-- C1, counterexample: with `h = 2^53 + 1` the hour count comes back as `2^53`, because
`parseInt` rounds to the nearest double, so the text is not `h:mm:ss`. -/
theorem formatDuration_isoDuration_fails :
    formatDuration (JSValue.string (isoDuration 9007199254740993 0 0))
        = "9007199254740992:00:00".toList ∧
      clockText 9007199254740993 0 0 = "9007199254740993:00:00".toList ∧
      formatDuration (JSValue.string (isoDuration 9007199254740993 0 0))
        ≠ clockText 9007199254740993 0 0 := by
  decide

/-! ## Substring search -/

theorem startsWith_iff (s q : Str) : startsWith s q = true ↔ ∃ suf, s = q ++ suf := by
  induction q generalizing s with
  | nil => simp [startsWith]
  | cons d ds ih =>
    cases s with
    | nil => simp [startsWith]
    | cons c cs =>
      simp only [startsWith, Bool.and_eq_true, beq_iff_eq, ih, List.cons_append, List.cons.injEq]
      constructor
      · rintro ⟨rfl, suf, rfl⟩
        exact ⟨suf, rfl, rfl⟩
      · rintro ⟨suf, rfl, rfl⟩
        exact ⟨rfl, suf, rfl⟩

theorem includes_iff (s q : Str) : includes s q = true ↔ OccursIn q s := by
  induction s with
  | nil =>
    simp only [includes, startsWith_iff, OccursIn]
    constructor
    · rintro ⟨suf, h⟩
      exact ⟨[], suf, h⟩
    · rintro ⟨pre, suf, h⟩
      have hp : pre = [] := by
        cases pre with
        | nil => rfl
        | cons a as => simp at h
      subst hp
      exact ⟨suf, h⟩
  | cons c cs ih =>
    simp only [includes, Bool.or_eq_true, startsWith_iff, ih, OccursIn]
    constructor
    · rintro (⟨suf, h⟩ | ⟨pre, suf, h⟩)
      · exact ⟨[], suf, h⟩
      · exact ⟨c :: pre, suf, by rw [h]; rfl⟩
    · rintro ⟨pre, suf, h⟩
      cases pre with
      | nil => exact Or.inl ⟨suf, h⟩
      | cons a as =>
        simp only [List.cons_append, List.cons.injEq] at h
        exact Or.inr ⟨as, suf, h.2⟩

theorem includes_nil (s : Str) : includes s [] = true := by
  cases s <;> simp [includes, startsWith]

/-! ## The formatter on other inputs -/

theorem matchHere_none (s : Str) (h : startsWith s ['P', 'T'] = false) : matchHere s = none := by
  unfold matchHere
  split
  · simp [startsWith] at h
  · rfl

theorem regexMatch_none (s : Str) (h : includes s ['P', 'T'] = false) : regexMatch s = none := by
  induction s with
  | nil => rfl
  | cons c cs ih =>
    simp only [includes, Bool.or_eq_false_iff] at h
    unfold regexMatch
    rw [matchHere_none (c :: cs) h.1]
    exact ih h.2

theorem formatDuration_of_zero (v : JSValue) (h : parseISODuration v = Duration.zero) :
    formatDuration v = "0:00".toList := by
  unfold formatDuration
  rw [h]
  decide

theorem startsWith_of_matchHere_none (s : Str) (h : matchHere s = none) :
    startsWith s ['P', 'T'] = false := by
  cases hs : startsWith s ['P', 'T'] with
  | false => rfl
  | true =>
    obtain ⟨suf, rfl⟩ := (startsWith_iff s ['P', 'T']).1 hs
    simp [matchHere] at h

theorem matchHere_some (s : Str) (r : Option Str × Option Str × Option Str)
    (h : matchHere s = some r) : ∃ rest, s = 'P' :: 'T' :: rest := by
  cases hs : startsWith s ['P', 'T'] with
  | false =>
    rw [matchHere_none s hs] at h
    exact Option.noConfusion h
  | true =>
    obtain ⟨suf, rfl⟩ := (startsWith_iff s ['P', 'T']).1 hs
    exact ⟨suf, rfl⟩

theorem regexMatch_some (s : Str) (r : Option Str × Option Str × Option Str)
    (h : regexMatch s = some r) :
    ∃ pre rest, s = pre ++ 'P' :: 'T' :: rest ∧ includes pre ['P', 'T'] = false ∧
      matchHere ('P' :: 'T' :: rest) = some r := by
  induction s with
  | nil => exact Option.noConfusion h
  | cons c cs ih =>
    unfold regexMatch at h
    cases hm : matchHere (c :: cs) with
    | some m =>
      rw [hm] at h
      obtain ⟨rest, hrest⟩ := matchHere_some (c :: cs) m hm
      refine ⟨[], rest, hrest, rfl, ?_⟩
      rw [← hrest, hm]
      exact h
    | none =>
      rw [hm] at h
      obtain ⟨pre, rest, hcs, hpre, hmatch⟩ := ih h
      refine ⟨c :: pre, rest, by rw [hcs]; rfl, ?_, hmatch⟩
      have hnot : startsWith (c :: pre) ['P', 'T'] = false := by
        cases hsw : startsWith (c :: pre) ['P', 'T'] with
        | false => rfl
        | true =>
          obtain ⟨suf, hsuf⟩ := (startsWith_iff (c :: pre) ['P', 'T']).1 hsw
          have hfull : startsWith (c :: cs) ['P', 'T'] = true := by
            rw [startsWith_iff]
            refine ⟨suf ++ 'P' :: 'T' :: rest, ?_⟩
            rw [hcs, ← List.cons_append, hsuf]
            simp
          rw [startsWith_of_matchHere_none (c :: cs) hm] at hfull
          exact Bool.noConfusion hfull
      simp only [includes, hnot, hpre, Bool.or_self]

theorem parseIntCapture_zero (g : Option Str) (h : ∀ ds, g = some ds → digitsValue ds = 0) :
    parseIntCapture g = JSNumber.fin 0 := by
  cases g with
  | none => rfl
  | some ds =>
    show roundToDouble (digitsValue ds) = JSNumber.fin 0
    rw [h ds rfl]
    exact roundToDouble_small 0 (by norm_num)

/-- C2 (amended): `formatDuration` returns `0:00` for every input that is not a string,
that is the empty string, or that is a string in which `PT` does not occur or in which
every component read right after the first `PT` (a run of digits and then `H`, `M` or `S`,
in this order) has the count zero, in particular when no component follows the first `PT`
at all. -/
theorem formatDuration_zero (v : JSValue)
    (h : ∀ s pre rest, v = JSValue.string s → s = pre ++ 'P' :: 'T' :: rest →
      includes pre ['P', 'T'] = false → ∀ ds ∈ componentDigits rest, digitsValue ds = 0) :
    formatDuration v = "0:00".toList := by
  apply formatDuration_of_zero
  cases v with
  | string s =>
    simp only [parseISODuration]
    split
    · rfl
    · cases hr : regexMatch s with
      | none => rfl
      | some r =>
        obtain ⟨pre, rest, hs, hpre, hm⟩ := regexMatch_some s r hr
        have hz := h s pre rest rfl hs hpre
        simp only [matchHere, Option.some.injEq] at hm
        subst hm
        have hmem : ∀ g ds, g = some ds →
            g ∈ [(optComponent 'H' rest).1,
              (optComponent 'M' (optComponent 'H' rest).2).1,
              (optComponent 'S' (optComponent 'M' (optComponent 'H' rest).2).2).1] →
            digitsValue ds = 0 := by
          intro g ds hg hin
          apply hz
          unfold componentDigits
          rw [List.reduceOption_mem_iff, ← hg]
          exact hin
        dsimp only
        rw [parseIntCapture_zero _ (fun ds hg => hmem _ ds hg (by simp)),
          parseIntCapture_zero _ (fun ds hg => hmem _ ds hg (by simp)),
          parseIntCapture_zero _ (fun ds hg => hmem _ ds hg (by simp))]
        rfl
  | _ => rfl

theorem afterFirstPT_decomposition (pre rest : Str) (hpre : includes pre ['P', 'T'] = false) :
    afterFirstPT (pre ++ 'P' :: 'T' :: rest) = some rest := by
  induction pre with
  | nil => simp [afterFirstPT, startsWith]
  | cons c pre ih =>
    simp only [includes, Bool.or_eq_false_iff] at hpre
    have hnot : startsWith (c :: (pre ++ 'P' :: 'T' :: rest)) ['P', 'T'] = false := by
      cases pre with
      | nil =>
        simp only [List.nil_append, startsWith]
        simp
      | cons d pre =>
        have := hpre.1
        simp only [startsWith] at this
        simp only [List.cons_append, startsWith]
        exact this
    rw [List.cons_append, afterFirstPT, if_neg (by simp [hnot])]
    exact ih hpre.2

/-- C2, witness: `PT5X`, `xPTy`, `PT1.5S`, `PT-5M` and `PT0Mabc` are malformed, have no
component with a non-zero count after their first `PT`, and are shown as `0:00`; so is
`1:30`, which has no `PT`. -/
theorem formatDuration_zero_witness :
    (isRestrictedForm "PT5X".toList = false ∧
      formatDuration (JSValue.string "PT5X".toList) = "0:00".toList) ∧
    (isRestrictedForm "xPTy".toList = false ∧
      formatDuration (JSValue.string "xPTy".toList) = "0:00".toList) ∧
    (isRestrictedForm "PT1.5S".toList = false ∧
      formatDuration (JSValue.string "PT1.5S".toList) = "0:00".toList) ∧
    (isRestrictedForm "PT-5M".toList = false ∧
      formatDuration (JSValue.string "PT-5M".toList) = "0:00".toList) ∧
    (isRestrictedForm "PT0Mabc".toList = false ∧
      formatDuration (JSValue.string "PT0Mabc".toList) = "0:00".toList) ∧
    formatDuration (JSValue.string "1:30".toList) = "0:00".toList := by
  have key : ∀ t : Str, (∀ rest, afterFirstPT t = some rest →
      ∀ ds ∈ componentDigits rest, digitsValue ds = 0) →
      ∀ s pre rest, JSValue.string t = JSValue.string s → s = pre ++ 'P' :: 'T' :: rest →
        includes pre ['P', 'T'] = false → ∀ ds ∈ componentDigits rest, digitsValue ds = 0 := by
    intro t ht s pre rest hv hs hpre
    injection hv with hv
    subst hv
    apply ht rest
    rw [hs]
    exact afterFirstPT_decomposition pre rest hpre
  have after : ∀ (t r : Str), afterFirstPT t = some r →
      (∀ ds ∈ componentDigits r, digitsValue ds = 0) →
      ∀ rest, afterFirstPT t = some rest → ∀ ds ∈ componentDigits rest, digitsValue ds = 0 := by
    intro t r hr hz rest hrest
    rw [hr] at hrest
    injection hrest with hrest
    subst hrest
    exact hz
  refine ⟨⟨by decide, formatDuration_zero _ (key _ ?_)⟩,
    ⟨by decide, formatDuration_zero _ (key _ ?_)⟩,
    ⟨by decide, formatDuration_zero _ (key _ ?_)⟩,
    ⟨by decide, formatDuration_zero _ (key _ ?_)⟩,
    ⟨by decide, formatDuration_zero _ (key _ ?_)⟩, formatDuration_zero _ (key _ ?_)⟩
  · exact after _ "5X".toList (by decide) (by decide)
  · exact after _ "y".toList (by decide) (by decide)
  · exact after _ "1.5S".toList (by decide) (by decide)
  · exact after _ "-5M".toList (by decide) (by decide)
  · exact after _ "0Mabc".toList (by decide) (by decide)
  · intro rest hrest
    have hn : afterFirstPT "1:30".toList = none := by decide
    rw [hn] at hrest
    exact Option.noConfusion hrest

/-! ### The amended class is exact -/

theorem regexMatch_decomposition (pre rest : Str) (hpre : includes pre ['P', 'T'] = false) :
    regexMatch (pre ++ 'P' :: 'T' :: rest) = matchHere ('P' :: 'T' :: rest) := by
  induction pre with
  | nil =>
    rw [List.nil_append, regexMatch]
    simp [matchHere]
  | cons c pre ih =>
    simp only [includes, Bool.or_eq_false_iff] at hpre
    have hnot : startsWith (c :: (pre ++ 'P' :: 'T' :: rest)) ['P', 'T'] = false := by
      cases pre with
      | nil =>
        simp only [List.nil_append, startsWith]
        simp
      | cons d pre =>
        have := hpre.1
        simp only [startsWith] at this
        simp only [List.cons_append, startsWith]
        exact this
    rw [List.cons_append, regexMatch, matchHere_none _ hnot]
    exact ih hpre.2

theorem decimal_eq_zeros (v : Nat) (k : Nat) (h : decimal v = List.replicate (k + 1) '0') :
    v = 0 ∧ k = 0 := by
  have hv : v = 0 := by
    have := digitsValue_decimal v
    rw [h] at this
    rw [← this]
    clear this h
    unfold digitsValue
    suffices hs : ∀ n, (List.replicate n '0').foldl (fun acc c => 10 * acc + (c.toNat - 48)) 0 = 0
      from hs _
    intro n
    induction n with
    | zero => rfl
    | succ n ih =>
      rw [List.replicate_succ, List.foldl_cons]
      exact ih
  subst hv
  refine ⟨rfl, ?_⟩
  have hl := congrArg List.length h
  simpa [decimal, digitsAux] using hl.symm

theorem shortestDecimal_eq_zero (x : Nat) (h : shortestDecimal x = 0) : x = 0 := by
  unfold shortestDecimal at h
  cases hf : ((List.range (numDigits x)).map (· + 1)).findSome? (pickRounding x) with
  | none =>
    rw [hf] at h
    exact h
  | some v =>
    rw [hf] at h
    have hv : v = 0 := h
    subst hv
    obtain ⟨k, _, hk⟩ := List.exists_of_findSome?_eq_some hf
    have := pickRounding_sound x k 0 hk
    rw [roundToDouble_small 0 (by norm_num)] at this
    injection this with this
    exact this.symm

theorem numberToString_eq_zeros (n : JSNumber) (k : Nat)
    (h : numberToString n = List.replicate (k + 1) '0') : n = JSNumber.fin 0 ∧ k = 0 := by
  cases n with
  | inf => exact absurd h (by simp [numberToString, List.replicate_succ])
  | fin x =>
    unfold numberToString at h
    dsimp only at h
    split_ifs at h with hlen
    · obtain ⟨hv, hk⟩ := decimal_eq_zeros _ k h
      rw [shortestDecimal_eq_zero x hv]
      exact ⟨rfl, hk⟩
    · split at h
      · obtain ⟨hv, hk⟩ := decimal_eq_zeros _ k h
        rw [shortestDecimal_eq_zero x hv]
        exact ⟨rfl, hk⟩
      · cases k with
        | zero => simp [List.replicate_succ] at h
        | succ k => simp [List.replicate_succ] at h
      · cases k with
        | zero => simp [List.replicate_succ] at h
        | succ k => simp [List.replicate_succ] at h

theorem numberToString_ne_nil (n : JSNumber) : numberToString n ≠ [] := by
  cases n with
  | inf => simp [numberToString]
  | fin x =>
    unfold numberToString
    dsimp only
    split_ifs
    · exact decimal_ne_nil _
    · split
      · exact decimal_ne_nil _
      · simp
      · simp

theorem padStart_length (s : Str) : 2 ≤ (padStart s 2).length := by
  unfold padStart
  rw [List.length_append, List.length_replicate]
  omega

theorem padStart_eq_zeros (n : JSNumber) (h : padStart (numberToString n) 2 = ['0', '0']) :
    n = JSNumber.fin 0 := by
  have hne := numberToString_ne_nil n
  have hlen := congrArg List.length h
  unfold padStart at h hlen
  rw [List.length_append, List.length_replicate] at hlen
  simp only [List.length_cons, List.length_nil] at hlen
  rcases hs : numberToString n with _ | ⟨a, _ | ⟨b, _ | ⟨c, t⟩⟩⟩
  · exact absurd hs hne
  · rw [hs] at h
    simp [List.replicate_succ] at h
    subst h
    exact (numberToString_eq_zeros n 0 hs).1
  · rw [hs] at h
    simp at h
    obtain ⟨rfl, rfl⟩ := h
    have := (numberToString_eq_zeros n 1 hs).2
    omega
  · rw [hs] at hlen
    simp at hlen

theorem isPositive_eq_false (n : JSNumber) (h : n.isPositive = false) : n = JSNumber.fin 0 := by
  cases n with
  | inf => exact Bool.noConfusion h
  | fin v =>
    have : v = 0 := by
      simpa [JSNumber.isPositive] using h
    rw [this]

theorem formatDuration_eq_zero_parse (v : JSValue) (h : formatDuration v = "0:00".toList) :
    parseISODuration v = Duration.zero := by
  unfold formatDuration at h
  dsimp only at h
  have hpadS := padStart_length (numberToString (parseISODuration v).seconds)
  have hpadM := padStart_length (numberToString (parseISODuration v).minutes)
  have hneH := numberToString_ne_nil (parseISODuration v).hours
  have hneM := numberToString_ne_nil (parseISODuration v).minutes
  split_ifs at h with hpos
  · have hlen := congrArg List.length h
    simp only [List.length_append, List.length_cons] at hlen
    have : ("0:00".toList).length = 4 := rfl
    omega
  · have hH := isPositive_eq_false _ (by simpa using hpos)
    rcases hm : numberToString (parseISODuration v).minutes with _ | ⟨a, _ | ⟨b, t⟩⟩
    · exact absurd hm hneM
    · rw [hm] at h
      have h' : ['0', ':', '0', '0']
          = a :: ':' :: padStart (numberToString (parseISODuration v).seconds) 2 := h.symm
      simp only [List.cons.injEq, true_and] at h'
      obtain ⟨ha, hS⟩ := h'
      subst ha
      have hM := (numberToString_eq_zeros _ 0 hm).1
      have hSz := padStart_eq_zeros _ hS.symm
      cases hd : parseISODuration v with
      | mk hh mm ss =>
        rw [hd] at hH hM hSz
        simp only at hH hM hSz
        rw [hH, hM, hSz]
        rfl
    · rw [hm] at h
      have hlen := congrArg List.length h
      simp only [List.length_append, List.length_cons] at hlen
      have : ("0:00".toList).length = 4 := rfl
      omega

theorem parseIntCapture_eq_zero (g : Option Str) (h : parseIntCapture g = JSNumber.fin 0) :
    ∀ ds, g = some ds → digitsValue ds = 0 := by
  intro ds hg
  subst hg
  exact roundToDouble_eq_small _ 0 (by norm_num) h

/-- The inputs of the amended C2 are all the inputs shown as `0:00`: when a string is shown
as `0:00`, every component read after its first `PT` has the count zero. -/
theorem formatDuration_exact_zero (s pre rest : Str)
    (h : formatDuration (JSValue.string s) = "0:00".toList)
    (hs : s = pre ++ 'P' :: 'T' :: rest) (hpre : includes pre ['P', 'T'] = false) :
    ∀ ds ∈ componentDigits rest, digitsValue ds = 0 := by
  have hz := formatDuration_eq_zero_parse _ h
  have hne : s ≠ [] := by
    rw [hs]
    simp
  simp only [parseISODuration] at hz
  rw [if_neg hne, hs, regexMatch_decomposition pre rest hpre] at hz
  simp only [matchHere] at hz
  injection hz with h1 h2 h3
  intro ds hds
  unfold componentDigits at hds
  rw [List.reduceOption_mem_iff] at hds
  simp only [List.mem_cons, List.mem_singleton, List.not_mem_nil, or_false] at hds
  rcases hds with hd | hd | hd
  · exact parseIntCapture_eq_zero _ h1 ds hd.symm
  · exact parseIntCapture_eq_zero _ h2 ds hd.symm
  · exact parseIntCapture_eq_zero _ h3 ds hd.symm

/-- C2, counterexample: strings that are not of the form `PT[nH][nM][nS]` and are not shown
as `0:00`: components out of order, and text around a duration. -/
theorem formatDuration_malformed_nonzero :
    (isRestrictedForm "PT5S3M".toList = false ∧
      formatDuration (JSValue.string "PT5S3M".toList) = "0:05".toList ∧
      formatDuration (JSValue.string "PT5S3M".toList) ≠ "0:00".toList) ∧
    (isRestrictedForm "abcPT1H2M3Sxyz".toList = false ∧
      formatDuration (JSValue.string "abcPT1H2M3Sxyz".toList) = "1:02:03".toList ∧
      formatDuration (JSValue.string "abcPT1H2M3Sxyz".toList) ≠ "0:00".toList) := by
  decide

/-! ## What each function leaves alone -/

@[simp] theorem setLoadingState_state (b i : Bool) (w : World) :
    (setLoadingState b i w).state = { w.state with isLoading := b } := by
  unfold setLoadingState
  dsimp only
  split_ifs <;> rfl

@[simp] theorem setLoadingState_pending (b i : Bool) (w : World) :
    (setLoadingState b i w).pending = w.pending := by
  unfold setLoadingState
  dsimp only
  split_ifs <;> rfl

@[simp] theorem setLoadingState_requests (b i : Bool) (w : World) :
    (setLoadingState b i w).requests = w.requests := by
  unfold setLoadingState
  dsimp only
  split_ifs <;> rfl

@[simp] theorem renderVideos_state (vs : List Video) (a : Bool) (w : World) :
    (renderVideos vs a w).state = w.state := by
  unfold renderVideos
  dsimp only
  split_ifs <;> rfl

@[simp] theorem renderVideos_pending (vs : List Video) (a : Bool) (w : World) :
    (renderVideos vs a w).pending = w.pending := by
  unfold renderVideos
  dsimp only
  split_ifs <;> rfl

@[simp] theorem renderVideos_requests (vs : List Video) (a : Bool) (w : World) :
    (renderVideos vs a w).requests = w.requests := by
  unfold renderVideos
  dsimp only
  split_ifs <;> rfl

@[simp] theorem filterVideos_state (q : Str) (w : World) :
    (filterVideos q w).state = { w.state with searchQuery := q } := by
  unfold filterVideos
  dsimp only
  split_ifs <;> rfl

@[simp] theorem filterVideos_pending (q : Str) (w : World) :
    (filterVideos q w).pending = w.pending := by
  unfold filterVideos
  dsimp only
  split_ifs <;> rfl

@[simp] theorem filterVideos_requests (q : Str) (w : World) :
    (filterVideos q w).requests = w.requests := by
  unfold filterVideos
  dsimp only
  split_ifs <;> rfl

@[simp] theorem handleError_pending (w : World) : (handleError w).pending = w.pending := rfl

@[simp] theorem handleError_requests (w : World) : (handleError w).requests = w.requests := rfl

@[simp] theorem fetchVideosSuspend_state (page : Nat) (k : Caller) (w : World) :
    (fetchVideosSuspend page k w).state = { w.state with isLoading := true } := by
  simp [fetchVideosSuspend]

@[simp] theorem fetchVideosSuspend_pending (page : Nat) (k : Caller) (w : World) :
    (fetchVideosSuspend page k w).pending = w.pending ++ [⟨k, page⟩] := by
  simp [fetchVideosSuspend]

@[simp] theorem fetchVideosSuspend_requests (page : Nat) (k : Caller) (w : World) :
    (fetchVideosSuspend page k w).requests = w.requests ++ [page] := by
  simp [fetchVideosSuspend]

@[simp] theorem fetchVideosResume_pending (r : FetchResult) (w : World) :
    (fetchVideosResume r w).2.pending = w.pending := by
  cases r <;> simp [fetchVideosResume]
  split_ifs <;> rfl

@[simp] theorem fetchVideosResume_requests (r : FetchResult) (w : World) :
    (fetchVideosResume r w).2.requests = w.requests := by
  cases r <;> simp [fetchVideosResume]
  split_ifs <;> rfl

@[simp] theorem fetchVideosResume_isLoading (r : FetchResult) (w : World) :
    (fetchVideosResume r w).2.state.isLoading = false := by
  cases r <;> simp [fetchVideosResume]

@[simp] theorem fetchVideosResume_currentPage (r : FetchResult) (w : World) :
    (fetchVideosResume r w).2.state.currentPage = w.state.currentPage := by
  cases r <;> simp [fetchVideosResume, handleError]
  split_ifs <;> rfl

@[simp] theorem fetchVideosResume_searchQuery (r : FetchResult) (w : World) :
    (fetchVideosResume r w).2.state.searchQuery = w.state.searchQuery := by
  cases r <;> simp [fetchVideosResume, handleError]
  split_ifs <;> rfl

theorem fetchVideosResume_hasMore_false (r : FetchResult) (w : World)
    (h : w.state.hasMoreVideos = false) :
    (fetchVideosResume r w).2.state.hasMoreVideos = false := by
  cases r <;> simp [fetchVideosResume, handleError]
  split_ifs <;> simp [h]

theorem fetchVideosResume_short (data : Option (List Video)) (w : World)
    (h : (data.getD []).length < config.perPage) :
    (fetchVideosResume (FetchResult.ok data) w).2.state.hasMoreVideos = false := by
  simp [fetchVideosResume, h]

@[simp] theorem loadMoreVideosResume_pending (vs : List Video) (w : World) :
    (loadMoreVideosResume vs w).pending = w.pending := by
  unfold loadMoreVideosResume
  dsimp only
  split_ifs <;> simp

@[simp] theorem loadMoreVideosResume_requests (vs : List Video) (w : World) :
    (loadMoreVideosResume vs w).requests = w.requests := by
  unfold loadMoreVideosResume
  dsimp only
  split_ifs <;> simp

@[simp] theorem loadMoreVideosResume_isLoading (vs : List Video) (w : World) :
    (loadMoreVideosResume vs w).state.isLoading = w.state.isLoading := by
  unfold loadMoreVideosResume
  dsimp only
  split_ifs <;> simp

@[simp] theorem loadMoreVideosResume_hasMore (vs : List Video) (w : World) :
    (loadMoreVideosResume vs w).state.hasMoreVideos = w.state.hasMoreVideos := by
  unfold loadMoreVideosResume
  dsimp only
  split_ifs <;> simp

@[simp] theorem loadMoreVideosResume_currentPage (vs : List Video) (w : World) :
    (loadMoreVideosResume vs w).state.currentPage = w.state.currentPage := by
  unfold loadMoreVideosResume
  dsimp only
  split_ifs <;> simp

@[simp] theorem initializeAppResume_pending (vs : List Video) (w : World) :
    (initializeAppResume vs w).pending = w.pending := by
  simp [initializeAppResume]

@[simp] theorem initializeAppResume_requests (vs : List Video) (w : World) :
    (initializeAppResume vs w).requests = w.requests := by
  simp [initializeAppResume]

@[simp] theorem initializeAppResume_isLoading (vs : List Video) (w : World) :
    (initializeAppResume vs w).state.isLoading = w.state.isLoading := by
  simp [initializeAppResume]

@[simp] theorem initializeAppResume_hasMore (vs : List Video) (w : World) :
    (initializeAppResume vs w).state.hasMoreVideos = w.state.hasMoreVideos := by
  simp [initializeAppResume]

@[simp] theorem initializeAppResume_currentPage (vs : List Video) (w : World) :
    (initializeAppResume vs w).state.currentPage = w.state.currentPage := by
  simp [initializeAppResume]

theorem settle_none (i : Nat) (r : FetchResult) (w : World) (h : w.pending.get? i = none) :
    settle i r w = w := by
  unfold settle
  rw [h]

theorem settle_some (i : Nat) (r : FetchResult) (w : World) (p : Pending)
    (h : w.pending.get? i = some p) :
    settle i r w =
      match p.caller with
      | Caller.initializeApp =>
        initializeAppResume (fetchVideosResume r { w with pending := w.pending.eraseIdx i }).1
          (fetchVideosResume r { w with pending := w.pending.eraseIdx i }).2
      | Caller.loadMoreVideos =>
        loadMoreVideosResume (fetchVideosResume r { w with pending := w.pending.eraseIdx i }).1
          (fetchVideosResume r { w with pending := w.pending.eraseIdx i }).2 := by
  unfold settle
  rw [h]

theorem settle_requests (i : Nat) (r : FetchResult) (w : World) :
    (settle i r w).requests = w.requests := by
  cases h : w.pending.get? i with
  | none => rw [settle_none i r w h]
  | some p =>
    rw [settle_some i r w p h]
    cases p.caller <;> simp

theorem settle_currentPage (i : Nat) (r : FetchResult) (w : World) :
    (settle i r w).state.currentPage = w.state.currentPage := by
  cases h : w.pending.get? i with
  | none => rw [settle_none i r w h]
  | some p =>
    rw [settle_some i r w p h]
    cases p.caller <;> simp

theorem settle_hasMore_false (i : Nat) (r : FetchResult) (w : World)
    (hw : w.state.hasMoreVideos = false) : (settle i r w).state.hasMoreVideos = false := by
  cases h : w.pending.get? i with
  | none => rw [settle_none i r w h]; exact hw
  | some p =>
    rw [settle_some i r w p h]
    cases p.caller <;> simp <;> exact fetchVideosResume_hasMore_false r _ hw

theorem settle_short (i : Nat) (data : Option (List Video)) (w : World) (p : Pending)
    (h : w.pending.get? i = some p) (hd : (data.getD []).length < config.perPage) :
    (settle i (FetchResult.ok data) w).state.hasMoreVideos = false := by
  rw [settle_some i _ w p h]
  cases p.caller <;> simp <;> exact fetchVideosResume_short data _ hd

theorem settle_isLoading (i : Nat) (r : FetchResult) (w : World) (p : Pending)
    (h : w.pending.get? i = some p) : (settle i r w).state.isLoading = false := by
  rw [settle_some i r w p h]
  cases p.caller <;> simp

theorem settle_pending (i : Nat) (r : FetchResult) (w : World) :
    (settle i r w).pending = w.pending.eraseIdx i := by
  cases h : w.pending.get? i with
  | none =>
    rw [settle_none i r w h]
    rw [List.get?_eq_none] at h
    exact (List.eraseIdx_of_length_le h).symm
  | some p =>
    rw [settle_some i r w p h]
    cases p.caller <;> simp

theorem step_hasMore_false (w : World) (ev : Event) (hw : w.state.hasMoreVideos = false) :
    (step w ev).state.hasMoreVideos = false ∧ (step w ev).requests = w.requests := by
  cases ev with
  | scroll t sh c =>
    rw [show step w (Event.scroll t sh c) = handleScroll t sh c w from rfl]
    unfold handleScroll
    rw [if_pos (by simp [hw])]
    exact ⟨hw, rfl⟩
  | loadMore =>
    rw [show step w Event.loadMore = loadMoreVideos w from rfl]
    unfold loadMoreVideos
    rw [if_pos (by simp [hw])]
    exact ⟨hw, rfl⟩
  | input v =>
    rw [show step w (Event.input v) = searchVideos v w from rfl]
    simp [searchVideos, hw]
  | settled i r =>
    rw [show step w (Event.settled i r) = settle i r w from rfl]
    exact ⟨settle_hasMore_false i r w hw, settle_requests i r w⟩

theorem foldl_step_hasMore_false (evs : List Event) : ∀ w : World,
    w.state.hasMoreVideos = false →
      (evs.foldl step w).state.hasMoreVideos = false ∧ (evs.foldl step w).requests = w.requests := by
  induction evs with
  | nil => intro w hw; exact ⟨hw, rfl⟩
  | cons ev evs ih =>
    intro w hw
    have h1 := step_hasMore_false w ev hw
    have h2 := ih (step w ev) h1.1
    exact ⟨h2.1, h2.2.trans h1.2⟩

/-! ## Filtering the displayed list -/

theorem cards_append (l1 l2 : List Node) : cards (l1 ++ l2) = cards l1 ++ cards l2 := by
  simp [cards, List.filterMap_append]

theorem cards_erase_noResults (l : List Node) : cards (l.erase Node.noResults) = cards l := by
  induction l with
  | nil => rfl
  | cons n l ih =>
    by_cases hn : n = Node.noResults
    · subst hn
      simp [cards]
    · rw [List.erase_cons_tail (by simpa using hn)]
      cases n <;> simp_all [cards]

theorem cards_map_applyFilter (q : Str) (l : List Node) :
    cards (l.map (applyFilter q))
      = (cards l).map (fun c => (c.1, if includes c.1 q then Display.block else Display.none)) := by
  induction l with
  | nil => rfl
  | cons n l ih =>
    cases n <;> simp_all [cards, applyFilter]

theorem cards_filterVideos (q : Str) (w : World) :
    cards (filterVideos q w).videoList
      = (cards w.videoList).map
          (fun c => (c.1, if includes c.1 q then Display.block else Display.none)) := by
  rw [← cards_map_applyFilter]
  unfold filterVideos
  dsimp only
  split_ifs
  · rw [cards_append]
    simp [cards]
  · rfl
  · exact cards_erase_noResults _
  · rfl

theorem count_noResults_map_applyFilter (q : Str) (l : List Node) :
    (l.map (applyFilter q)).count Node.noResults = l.count Node.noResults := by
  induction l with
  | nil => rfl
  | cons n l ih =>
    cases n <;> simp_all [applyFilter, List.count_cons]

theorem countP_matchesQuery_eq_zero (q : Str) (l : List Node) :
    l.countP (matchesQuery q) = 0 ↔ ∀ c ∈ cards l, includes c.1 q = false := by
  induction l with
  | nil => simp [cards]
  | cons n l ih =>
    cases n with
    | card t d =>
      have hc : cards (Node.card t d :: l) = (t, d) :: cards l := rfl
      rw [hc]
      by_cases hi : includes t q = true
      · rw [List.countP_cons_of_pos _ _ (by simpa [matchesQuery] using hi)]
        constructor
        · intro h0
          omega
        · intro hall
          have := hall (t, d) (List.mem_cons_self _ _)
          rw [hi] at this
          exact Bool.noConfusion this
      · rw [List.countP_cons_of_neg _ _ (by simpa [matchesQuery] using hi), ih]
        constructor
        · intro hall c hc
          rcases List.mem_cons.1 hc with rfl | hc
          · simpa using hi
          · exact hall c hc
        · intro hall c hc
          exact hall c (List.mem_cons_of_mem _ hc)
    | _ =>
      rw [List.countP_cons_of_neg _ _ (by simp [matchesQuery])]
      exact ih

theorem filterVideos_cards_visible (q : Str) (w : World) :
    ∀ c ∈ cards (filterVideos q w).videoList, c.2.isVisible = true ↔ includes c.1 q = true := by
  intro c hc
  rw [cards_filterVideos, List.mem_map] at hc
  obtain ⟨c0, _, rfl⟩ := hc
  by_cases hi : includes c0.1 q = true
  · simp [hi, Display.isVisible]
  · simp [hi, Display.isVisible]

/-- C3: after `filterVideos(q)` the cards are the cards there were, in the same order, each
shown exactly when its stored title contains `q` as a substring; with the empty query every
card is shown; and `music` over the titles `Music Mix`, `News`, `Live Music` leaves the
first and the third shown and the second hidden. -/
theorem filterVideos_visibility (w : World) (q : Str) :
    cards (filterVideos q w).videoList
        = (cards w.videoList).map
            (fun c => (c.1, if includes c.1 q then Display.block else Display.none)) ∧
      (∀ c ∈ cards (filterVideos q w).videoList, c.2.isVisible = true ↔ OccursIn q c.1) ∧
      (q = [] → ∀ c ∈ cards (filterVideos q w).videoList, c.2.isVisible = true) ∧
      cards (filterVideos "music".toList scenarioList).videoList
        = [("music mix".toList, Display.block), ("news".toList, Display.none),
            ("live music".toList, Display.block)] := by
  have key := filterVideos_cards_visible q w
  refine ⟨cards_filterVideos q w, ?_, ?_, by decide⟩
  · intro c hc
    rw [key c hc, includes_iff]
  · intro hq c hc
    rw [key c hc, hq]
    exact includes_nil c.1

theorem filterVideos_count (w : World) (q : Str) (h : noResultsCount w.videoList ≤ 1) :
    noResultsCount (filterVideos q w).videoList
      = if w.videoList.countP (matchesQuery q) = 0 ∧ q ≠ [] then 1 else 0 := by
  unfold noResultsCount at h ⊢
  have hcount := count_noResults_map_applyFilter q w.videoList
  unfold filterVideos
  dsimp only
  split_ifs with hv hc hc
  · have hnot : Node.noResults ∉ w.videoList.map (applyFilter q) := by
      simpa using hc
    rw [List.count_append, List.count_eq_zero.2 hnot]
    rfl
  · have hmem : Node.noResults ∈ w.videoList.map (applyFilter q) := by
      simpa using hc
    have := List.count_pos_iff.2 hmem
    dsimp only
    omega
  · dsimp only [removeChild]
    rw [List.count_erase_self]
    omega
  · have hnot : Node.noResults ∉ w.videoList.map (applyFilter q) := by
      simpa using hc
    exact List.count_eq_zero.2 hnot

/-- C4: when `elements.noResults` is among the children at most once beforehand, then after
`filterVideos(q)` it is there exactly once if `q` is not empty and no card has a title
containing `q`, and not at all if `q` is empty or some card has such a title. -/
theorem filterVideos_noResults (w : World) (q : Str)
    (h : noResultsCount w.videoList ≤ 1) :
    ((q ≠ [] ∧ ∀ c ∈ cards w.videoList, ¬ OccursIn q c.1) →
        noResultsCount (filterVideos q w).videoList = 1) ∧
      ((q = [] ∨ ∃ c ∈ cards w.videoList, OccursIn q c.1) →
        noResultsCount (filterVideos q w).videoList = 0) := by
  have hzero := countP_matchesQuery_eq_zero q w.videoList
  rw [filterVideos_count w q h]
  constructor
  · rintro ⟨hq, hnone⟩
    have hv : w.videoList.countP (matchesQuery q) = 0 := by
      rw [hzero]
      intro c hc
      have := hnone c hc
      rw [← includes_iff] at this
      simpa using this
    rw [if_pos ⟨hv, hq⟩]
  · intro hsome
    have hv : ¬ (w.videoList.countP (matchesQuery q) = 0 ∧ q ≠ []) := by
      rintro ⟨hv, hq⟩
      rcases hsome with hq0 | ⟨c, hc, hocc⟩
      · exact hq hq0
      · rw [hzero] at hv
        have := hv c hc
        rw [← includes_iff] at hocc
        rw [hocc] at this
        exact Bool.noConfusion this
    rw [if_neg hv]

/-- C4, witness: the query `xyz123` puts the paragraph into the list of the three cards
once, a second `xyz123` keeps it there once, and the empty query takes it out. -/
theorem filterVideos_noResults_witness :
    noResultsCount (filterVideos "xyz123".toList scenarioList).videoList ≤ 1 ∧
      noResultsCount
          (filterVideos "xyz123".toList (filterVideos "xyz123".toList scenarioList)).videoList = 1 ∧
      noResultsCount
          (filterVideos [] (filterVideos "xyz123".toList scenarioList)).videoList = 0 := by
  have hle : noResultsCount (filterVideos "xyz123".toList scenarioList).videoList ≤ 1 := by
    decide
  have h := filterVideos_noResults (filterVideos "xyz123".toList scenarioList)
  refine ⟨hle, (h "xyz123".toList hle).1 ⟨by decide, ?_⟩, (h [] hle).2 (Or.inl rfl)⟩
  intro c hc
  rw [← includes_iff]
  revert c
  decide

theorem setLoadingState_handleError_videoList (w : World) :
    (setLoadingState false false (handleError w)).videoList = [Node.errorMessage] := by
  unfold setLoadingState handleError
  dsimp only
  rw [if_neg (by decide), if_neg (by decide)]

theorem renderVideos_append_videoList (vs : List Video) (w : World) (h : 0 < vs.length) :
    (renderVideos vs true w).videoList = w.videoList ++ vs.filterMap createVideoElement := by
  unfold renderVideos
  dsimp only
  rw [if_neg (by omega)]
  rfl

theorem renderVideos_replace_videoList (vs : List Video) (w : World) :
    (renderVideos vs false w).videoList
      = if vs.length = 0 then [Node.emptyMessage] else vs.filterMap createVideoElement := by
  unfold renderVideos
  simp only [Bool.not_false, if_true]
  split_ifs
  · rfl
  · exact List.nil_append _

/-! ## Cards across the other functions -/

theorem cards_erase_loader (l : List Node) : cards (l.erase Node.loader) = cards l := by
  induction l with
  | nil => rfl
  | cons n l ih =>
    by_cases hn : n = Node.loader
    · subst hn
      simp [cards]
    · rw [List.erase_cons_tail (by simpa using hn)]
      cases n <;> simp_all [cards]

theorem cards_replicate_shimmer (k : Nat) : cards (List.replicate k Node.shimmer) = [] := by
  induction k with
  | zero => rfl
  | succ k ih => rw [List.replicate_succ]; exact ih

theorem setLoadingState_cards_subset (b i : Bool) (w : World) :
    ∀ c ∈ cards (setLoadingState b i w).videoList, c ∈ cards w.videoList := by
  unfold setLoadingState
  dsimp only
  split_ifs
  · rw [cards_replicate_shimmer]
    intro c hc
    exact absurd hc (List.not_mem_nil c)
  · intro c hc
    rw [appendChild, cards_append, cards_erase_loader] at hc
    simpa [cards] using hc
  · intro c hc
    rw [removeChild, cards_erase_loader] at hc
    exact hc
  · intro c hc
    exact hc

theorem fetchVideosResume_cards_subset (r : FetchResult) (w : World) :
    ∀ c ∈ cards (fetchVideosResume r w).2.videoList, c ∈ cards w.videoList := by
  have herr : ∀ c ∈ cards (setLoadingState false false (handleError w)).videoList,
      c ∈ cards w.videoList := by
    intro c hc
    rw [setLoadingState_handleError_videoList] at hc
    exact absurd hc (List.not_mem_nil c)
  cases r with
  | ok data =>
    unfold fetchVideosResume
    dsimp only
    split_ifs <;> exact setLoadingState_cards_subset _ _ _
  | rejected => exact herr
  | httpStatus status => exact herr
  | invalidJson => exact herr

theorem created_cards_unset (vs : List Video) :
    ∀ c ∈ cards (vs.filterMap createVideoElement), c.2 = Display.unset := by
  induction vs with
  | nil =>
    intro c hc
    exact absurd hc (List.not_mem_nil c)
  | cons v vs ih =>
    intro c hc
    cases hv : createVideoElement v with
    | none =>
      rw [List.filterMap_cons_none hv] at hc
      exact ih c hc
    | some n =>
      rw [List.filterMap_cons_some hv] at hc
      unfold createVideoElement at hv
      split at hv
      · exact Option.noConfusion hv
      · split at hv
        · have hn := Option.some.inj hv
          subst hn
          rcases List.mem_cons.1 hc with rfl | hc
          · rfl
          · exact ih c hc
        · have hn := Option.some.inj hv
          subst hn
          rcases List.mem_cons.1 hc with rfl | hc
          · rfl
          · exact ih c hc

theorem initializeAppResume_cards_unset (vs : List Video) (w : World) :
    ∀ c ∈ cards (initializeAppResume vs w).videoList, c.2 = Display.unset := by
  unfold initializeAppResume
  rw [renderVideos_replace_videoList]
  split_ifs
  · intro c hc
    simp [cards] at hc
  · exact created_cards_unset vs

theorem loadMoreVideosResume_filterApplied (vs : List Video) (w : World)
    (h : FilterApplied w) : FilterApplied (loadMoreVideosResume vs w) := by
  unfold loadMoreVideosResume
  dsimp only
  split_ifs with hlen hquery
  · intro c hc
    have := filterVideos_cards_visible _ _ c hc
    simpa using this
  · have hq0 : w.state.searchQuery = [] := by
      simpa using hquery
    intro c hc
    have hs : (renderVideos vs true
        { w with state := { w.state with videos := w.state.videos ++ vs } }).state.searchQuery
          = [] := by
      simpa using hq0
    rw [hs, includes_nil]
    rw [renderVideos_append_videoList vs _ hlen, cards_append] at hc
    rcases List.mem_append.1 hc with hc | hc
    · have := h c hc
      rw [hq0, includes_nil] at this
      simpa using this
    · rw [created_cards_unset vs c hc]
      simp [Display.isVisible]
  · exact h

/-! ## The single paragraph `elements.noResults` -/

theorem setLoadingState_noResultsCount (b i : Bool) (w : World) :
    noResultsCount (setLoadingState b i w).videoList ≤ noResultsCount w.videoList := by
  unfold setLoadingState noResultsCount
  dsimp only
  split_ifs
  · simp [List.count_replicate]
  · simp [appendChild, List.count_append, List.count_erase_of_ne]
  · simp [removeChild, List.count_erase_of_ne]
  · exact le_refl _

theorem count_noResults_created (vs : List Video) :
    (vs.filterMap createVideoElement).count Node.noResults = 0 := by
  rw [List.count_eq_zero]
  intro hmem
  obtain ⟨v, _, hv⟩ := List.mem_filterMap.1 hmem
  unfold createVideoElement at hv
  split at hv
  · exact Option.noConfusion hv
  · split at hv <;> exact Node.noConfusion (Option.some.inj hv)

theorem renderVideos_noResultsCount (vs : List Video) (a : Bool) (w : World) :
    noResultsCount (renderVideos vs a w).videoList ≤ noResultsCount w.videoList := by
  unfold renderVideos noResultsCount
  dsimp only
  split_ifs <;> simp [List.count_append, count_noResults_created]

theorem filterVideos_noResultsCount (q : Str) (w : World)
    (h : noResultsCount w.videoList ≤ 1) : noResultsCount (filterVideos q w).videoList ≤ 1 := by
  rw [filterVideos_count w q h]
  split_ifs <;> omega

theorem fetchVideosResume_noResultsCount (r : FetchResult) (w : World) :
    noResultsCount (fetchVideosResume r w).2.videoList ≤ noResultsCount w.videoList := by
  have herr : noResultsCount (setLoadingState false false (handleError w)).videoList
      ≤ noResultsCount w.videoList :=
    le_trans (setLoadingState_noResultsCount _ _ _) (Nat.zero_le _)
  cases r with
  | ok data =>
    unfold fetchVideosResume
    dsimp only
    split_ifs <;> exact setLoadingState_noResultsCount _ _ _
  | rejected => exact herr
  | httpStatus status => exact herr
  | invalidJson => exact herr

theorem loadMoreVideosResume_noResultsCount (vs : List Video) (w : World)
    (h : noResultsCount w.videoList ≤ 1) :
    noResultsCount (loadMoreVideosResume vs w).videoList ≤ 1 := by
  unfold loadMoreVideosResume
  dsimp only
  have hr : noResultsCount
      (renderVideos vs true
        { w with state := { w.state with videos := w.state.videos ++ vs } }).videoList ≤ 1 :=
    le_trans (renderVideos_noResultsCount _ _ _) h
  split_ifs
  · exact filterVideos_noResultsCount _ _ hr
  · exact hr
  · exact h

theorem loadMoreVideos_noResultsCount (w : World) (h : noResultsCount w.videoList ≤ 1) :
    noResultsCount (loadMoreVideos w).videoList ≤ 1 := by
  unfold loadMoreVideos
  split_ifs
  · exact h
  · exact le_trans (setLoadingState_noResultsCount _ _ _) h

theorem step_noResultsCount (w : World) (ev : Event) (h : noResultsCount w.videoList ≤ 1) :
    noResultsCount (step w ev).videoList ≤ 1 := by
  cases ev with
  | scroll t sh c =>
    rw [show step w (Event.scroll t sh c) = handleScroll t sh c w from rfl]
    unfold handleScroll
    split_ifs
    · exact h
    · exact loadMoreVideos_noResultsCount w h
    · exact h
  | loadMore => exact loadMoreVideos_noResultsCount w h
  | input v => exact filterVideos_noResultsCount _ w h
  | settled i r =>
    rw [show step w (Event.settled i r) = settle i r w from rfl]
    cases hp : w.pending.get? i with
    | none =>
      rw [settle_none i r w hp]
      exact h
    | some p =>
      rw [settle_some i r w p hp]
      have hr : noResultsCount
          (fetchVideosResume r { w with pending := w.pending.eraseIdx i }).2.videoList ≤ 1 :=
        le_trans (fetchVideosResume_noResultsCount r _) h
      cases p.caller with
      | initializeApp => exact le_trans (renderVideos_noResultsCount _ _ _) hr
      | loadMoreVideos => exact loadMoreVideosResume_noResultsCount _ _ hr

/-- The paragraph `elements.noResults` is among the children at most once in every
reachable state. -/
theorem run_noResultsCount (evs : List Event) : noResultsCount (run evs).videoList ≤ 1 := by
  have hfold : ∀ (l : List Event) (w : World), noResultsCount w.videoList ≤ 1 →
      noResultsCount (l.foldl step w).videoList ≤ 1 := by
    intro l
    induction l with
    | nil => intro w h; exact h
    | cons ev l ih => intro w h; exact ih _ (step_noResultsCount w ev h)
  exact hfold evs _ (by decide)

/-! ## The guard of the load-more trigger -/

/-- C5: in a state with `isLoading` true or `hasMoreVideos` false, `loadMoreVideos` and
`handleScroll` return the state they were given: `state`, the displayed list, the
outstanding fetches and the pages requested are all unchanged. -/
theorem loadMore_guarded (w : World)
    (h : w.state.isLoading = true ∨ w.state.hasMoreVideos = false) :
    loadMoreVideos w = w ∧ ∀ t sh c : Int, handleScroll t sh c w = w := by
  have hg : (w.state.isLoading || !w.state.hasMoreVideos) = true := by
    rcases h with h | h <;> simp [h]
  constructor
  · unfold loadMoreVideos
    rw [if_pos hg]
  · intro t sh c
    unfold handleScroll
    rw [if_pos hg]

/-- C5, witness: while the first fetch is outstanding a trigger changes nothing. -/
theorem loadMore_guarded_witness :
    loadMoreVideos (initializeApp initialWorld) = initializeApp initialWorld ∧
      ∀ t sh c : Int,
        handleScroll t sh c (initializeApp initialWorld) = initializeApp initialWorld :=
  loadMore_guarded (initializeApp initialWorld) (Or.inl (by decide))

/-! ## Exhaustion -/

/-- C6: when an outstanding fetch, of the first page or of a later one, settles with fewer
records than `perPage`, `hasMoreVideos` is false afterwards, and after any further scroll
triggers, load-more triggers, search inputs and settlements it is still false and no page
has been requested in between. -/
theorem short_page_exhausts (w : World) (i : Nat) (p : Pending) (data : Option (List Video))
    (hp : w.pending.get? i = some p) (hd : (data.getD []).length < config.perPage) :
    (settle i (FetchResult.ok data) w).state.hasMoreVideos = false ∧
      ∀ evs : List Event,
        (evs.foldl step (settle i (FetchResult.ok data) w)).state.hasMoreVideos = false ∧
        (evs.foldl step (settle i (FetchResult.ok data) w)).requests
          = (settle i (FetchResult.ok data) w).requests :=
  ⟨settle_short i data w p hp hd,
    fun evs => foldl_step_hasMore_false evs _ (settle_short i data w p hp hd)⟩

/-- C6, witness: page 1 returns 4 records; `hasMoreVideos` is false at once, and a scroll
to the bottom and a direct load-more afterwards request nothing. -/
theorem short_page_exhausts_witness :
    (run [Event.settled 0 (FetchResult.ok (some (List.replicate 4 (videoTitled "News"))))]
        ).state.hasMoreVideos = false ∧
      (run [Event.settled 0 (FetchResult.ok (some (List.replicate 4 (videoTitled "News")))),
          Event.scroll 5000 5000 800, Event.loadMore]).requests = [1] := by
  have h := short_page_exhausts (initializeApp initialWorld) 0 ⟨Caller.initializeApp, 1⟩
    (some (List.replicate 4 (videoTitled "News"))) (by decide) (by decide)
  refine ⟨h.1, ?_⟩
  have h2 := (h.2 [Event.scroll 5000 5000 800, Event.loadMore]).2
  rw [settle_requests] at h2
  exact h2

/-! ## A failed fetch -/

theorem fetchVideosResume_failed (r : FetchResult) (w : World)
    (hr : ∀ data, r ≠ FetchResult.ok data) :
    fetchVideosResume r w = ([], setLoadingState false false (handleError w)) := by
  cases r with
  | ok data => exact absurd rfl (hr data)
  | _ => rfl

/-- C7 (amended): when a load-more fetch fails, the displayed list afterwards consists of
the error indicator alone; the cards rendered from earlier pages are no longer in it. -/
theorem failed_loadMore_replaces_list (w : World) (i : Nat) (p : Pending) (r : FetchResult)
    (hp : w.pending.get? i = some p) (hc : p.caller = Caller.loadMoreVideos)
    (hr : ∀ data, r ≠ FetchResult.ok data) :
    (settle i r w).videoList = [Node.errorMessage] ∧ cards (settle i r w).videoList = [] := by
  have hl : (settle i r w).videoList = [Node.errorMessage] := by
    rw [settle_some i r w p hp, hc]
    dsimp only
    rw [fetchVideosResume_failed r _ hr]
    unfold loadMoreVideosResume
    rw [if_neg (by simp)]
    exact setLoadingState_handleError_videoList _
  exact ⟨hl, by rw [hl]; rfl⟩

/-- C7, witness: the fetch of page 2 is rejected after a full first page. -/
theorem failed_loadMore_replaces_list_witness :
    (run [Event.settled 0 (FetchResult.ok (some fullPage)), Event.loadMore,
        Event.settled 0 FetchResult.rejected]).videoList = [Node.errorMessage] ∧
      cards (run [Event.settled 0 (FetchResult.ok (some fullPage)), Event.loadMore,
        Event.settled 0 FetchResult.rejected]).videoList = [] :=
  failed_loadMore_replaces_list
    (run [Event.settled 0 (FetchResult.ok (some fullPage)), Event.loadMore]) 0
    ⟨Caller.loadMoreVideos, 2⟩ FetchResult.rejected (by decide) rfl
    (by intro data h; exact FetchResult.noConfusion h)

/-- C7, counterexample: ten cards are displayed, the fetch of page 2 is outstanding, it is
rejected, and none of the ten cards is left in the list. -/
theorem failed_loadMore_drops_cards :
    (cards (run [Event.settled 0 (FetchResult.ok (some fullPage)), Event.loadMore]).videoList
        ).length = 10 ∧
      (run [Event.settled 0 (FetchResult.ok (some fullPage)), Event.loadMore]).pending
        = [⟨Caller.loadMoreVideos, 2⟩] ∧
      (run [Event.settled 0 (FetchResult.ok (some fullPage)), Event.loadMore,
        Event.settled 0 FetchResult.rejected]).videoList = [Node.errorMessage] ∧
      (cards (run [Event.settled 0 (FetchResult.ok (some fullPage)), Event.loadMore,
        Event.settled 0 FetchResult.rejected]).videoList).length = 0 := by
  decide

/-! ## One fetch at a time -/

theorem oneFetch_step (w : World) (ev : Event) (h : OneFetch w) : OneFetch (step w ev) := by
  obtain ⟨hlen, hiff⟩ := h
  have hload : ∀ w1 : World, w1 = loadMoreVideos w → OneFetch w1 := by
    intro w1 hw1
    subst hw1
    unfold loadMoreVideos
    split_ifs with hg
    · exact ⟨hlen, hiff⟩
    · simp only [Bool.or_eq_true, Bool.not_eq_true', not_or, Bool.not_eq_true,
        Bool.not_eq_false] at hg
      have h0 : w.pending.length = 0 := by
        have : ¬ w.pending.length = 1 := by
          rw [← hiff, hg.1]
          exact Bool.noConfusion
        omega
      constructor <;> simp [h0]
  cases ev with
  | scroll t sh c =>
    rw [show step w (Event.scroll t sh c) = handleScroll t sh c w from rfl]
    unfold handleScroll
    split_ifs
    · exact ⟨hlen, hiff⟩
    · exact hload _ rfl
    · exact ⟨hlen, hiff⟩
  | loadMore => exact hload _ rfl
  | input v =>
    rw [show step w (Event.input v) = searchVideos v w from rfl]
    unfold OneFetch searchVideos
    simp only [filterVideos_pending, filterVideos_state]
    exact ⟨hlen, hiff⟩
  | settled i r =>
    rw [show step w (Event.settled i r) = settle i r w from rfl]
    cases hp : w.pending.get? i with
    | none =>
      rw [settle_none i r w hp]
      exact ⟨hlen, hiff⟩
    | some p =>
      have hi : i < w.pending.length := by
        rw [List.get?_eq_some] at hp
        exact hp.1
      have hlen' : (settle i r w).pending.length = 0 := by
        rw [settle_pending, List.length_eraseIdx, if_pos hi]
        omega
      unfold OneFetch
      rw [settle_isLoading i r w p hp, hlen']
      simp

theorem oneFetch_foldl (evs : List Event) : ∀ w : World, OneFetch w →
    OneFetch (evs.foldl step w) := by
  induction evs with
  | nil => intro w h; exact h
  | cons ev evs ih => intro w h; exact ih _ (oneFetch_step w ev h)

/-- C8: in the initial state and in every state reached from it by `initializeApp` and then
any scroll triggers, load-more triggers, search inputs and settlements of fetches, at most
one fetch is outstanding, and `isLoading` is true exactly when one is. -/
theorem one_fetch_in_flight :
    OneFetch initialWorld ∧ ∀ evs : List Event, OneFetch (run evs) := by
  refine ⟨⟨by decide, by decide⟩, fun evs => oneFetch_foldl evs _ ⟨by decide, by decide⟩⟩

/-! ## The page counter -/

theorem increment_of_lt (n : Nat) (h : n < 2 ^ 53) : increment n = n + 1 := by
  unfold increment
  by_cases hn : n + 1 < 2 ^ 53
  · rw [roundToDouble_small (n + 1) hn]
  · have : n = 2 ^ 53 - 1 := by omega
    subst this
    decide

theorem increment_limit : increment (2 ^ 53) = 2 ^ 53 := by decide

theorem le_increment (n : Nat) (h : n ≤ 2 ^ 53) : n ≤ increment n ∧ increment n ≤ 2 ^ 53 := by
  rcases Nat.lt_or_eq_of_le h with hlt | heq
  · rw [increment_of_lt n hlt]
    omega
  · subst heq
    rw [increment_limit]
    omega

theorem loadMoreVideos_currentPage (w : World) :
    (loadMoreVideos w).state.currentPage
      = if w.state.isLoading || !w.state.hasMoreVideos then w.state.currentPage
        else increment w.state.currentPage := by
  unfold loadMoreVideos
  split_ifs <;> simp

theorem handleScroll_currentPage (t sh c : Int) (w : World) :
    (handleScroll t sh c w).state.currentPage
      = if w.state.isLoading || !w.state.hasMoreVideos then w.state.currentPage
        else if t + c ≥ sh - config.scrollThreshold then increment w.state.currentPage
        else w.state.currentPage := by
  unfold handleScroll
  split_ifs with hg hp
  · rfl
  · rw [loadMoreVideos_currentPage, if_neg hg]
  · rfl

theorem step_currentPage_changed (w : World) (ev : Event)
    (h : (step w ev).state.currentPage ≠ w.state.currentPage) :
    (w.state.isLoading = false ∧ w.state.hasMoreVideos = true) ∧
      (ev = Event.loadMore ∨
        ∃ t sh c : Int, ev = Event.scroll t sh c ∧ t + c ≥ sh - config.scrollThreshold) := by
  cases ev with
  | scroll t sh c =>
    rw [show step w (Event.scroll t sh c) = handleScroll t sh c w from rfl,
      handleScroll_currentPage] at h
    split_ifs at h with hg hp
    · exact absurd rfl h
    · exact ⟨by simpa using hg, Or.inr ⟨t, sh, c, rfl, hp⟩⟩
    · exact absurd rfl h
  | loadMore =>
    rw [show step w Event.loadMore = loadMoreVideos w from rfl, loadMoreVideos_currentPage] at h
    split_ifs at h with hg
    · exact absurd rfl h
    · exact ⟨by simpa using hg, Or.inl rfl⟩
  | input v =>
    exact absurd (by simp [step, searchVideos]) h
  | settled i r =>
    exact absurd (settle_currentPage i r w) h

theorem step_currentPage_trigger (w : World) (ev : Event)
    (hg : w.state.isLoading = false ∧ w.state.hasMoreVideos = true)
    (hev : ev = Event.loadMore ∨
      ∃ t sh c : Int, ev = Event.scroll t sh c ∧ t + c ≥ sh - config.scrollThreshold) :
    (step w ev).state.currentPage = increment w.state.currentPage := by
  have hguard : ¬ (w.state.isLoading || !w.state.hasMoreVideos) = true := by
    simp [hg.1, hg.2]
  rcases hev with rfl | ⟨t, sh, c, rfl, hp⟩
  · rw [show step w Event.loadMore = loadMoreVideos w from rfl, loadMoreVideos_currentPage,
      if_neg hguard]
  · rw [show step w (Event.scroll t sh c) = handleScroll t sh c w from rfl,
      handleScroll_currentPage, if_neg hguard, if_pos hp]

theorem step_currentPage_range (w : World) (ev : Event)
    (h : 1 ≤ w.state.currentPage ∧ w.state.currentPage ≤ 2 ^ 53) :
    (1 ≤ (step w ev).state.currentPage ∧ (step w ev).state.currentPage ≤ 2 ^ 53) ∧
      w.state.currentPage ≤ (step w ev).state.currentPage := by
  by_cases hc : (step w ev).state.currentPage = w.state.currentPage
  · rw [hc]
    exact ⟨h, le_refl _⟩
  · obtain ⟨hg, hev⟩ := step_currentPage_changed w ev hc
    rw [step_currentPage_trigger w ev hg hev]
    have := le_increment w.state.currentPage h.2
    omega

theorem foldl_step_currentPage_range (evs : List Event) : ∀ w : World,
    1 ≤ w.state.currentPage ∧ w.state.currentPage ≤ 2 ^ 53 →
      1 ≤ (evs.foldl step w).state.currentPage ∧ (evs.foldl step w).state.currentPage ≤ 2 ^ 53 := by
  induction evs with
  | nil => intro w h; exact h
  | cons ev evs ih => intro w h; exact ih _ (step_currentPage_range w ev h).1

theorem run_currentPage_range (evs : List Event) :
    1 ≤ (run evs).state.currentPage ∧ (run evs).state.currentPage ≤ 2 ^ 53 :=
  foldl_step_currentPage_range evs _ (by decide)

/-- C9 (amended): in every reachable state `currentPage` is an integer from 1 to `2^53`,
and no event decreases it.  Only a load-more trigger that passes the guard changes it (a
call of `loadMoreVideos`, or a scroll within the threshold, with `isLoading` false and
`hasMoreVideos` true); such a trigger advances it by exactly one at once, before its fetch
settles, as long as it is below `2^53`, where a Number stops counting.  Every other event
leaves it unchanged: a trigger that is guarded out, a scroll outside the threshold, a search
input, and the settlement of a fetch, successful or failed.  After a first page of 10
records it is 1 and `hasMoreVideos` is true, and a scroll to the bottom makes it 2. -/
theorem currentPage_advance :
    (∀ evs : List Event,
        1 ≤ (run evs).state.currentPage ∧ (run evs).state.currentPage ≤ 2 ^ 53) ∧
      (∀ (evs : List Event) (ev : Event),
        (run evs).state.currentPage ≤ (step (run evs) ev).state.currentPage) ∧
      (∀ (w : World) (ev : Event), (step w ev).state.currentPage ≠ w.state.currentPage →
        (w.state.isLoading = false ∧ w.state.hasMoreVideos = true) ∧
          (ev = Event.loadMore ∨
            ∃ t sh c : Int, ev = Event.scroll t sh c ∧ t + c ≥ sh - config.scrollThreshold)) ∧
      (∀ (w : World) (ev : Event),
        w.state.isLoading = false ∧ w.state.hasMoreVideos = true →
        (ev = Event.loadMore ∨
          ∃ t sh c : Int, ev = Event.scroll t sh c ∧ t + c ≥ sh - config.scrollThreshold) →
        (w.state.currentPage < 2 ^ 53 →
            (step w ev).state.currentPage = w.state.currentPage + 1) ∧
          (w.state.currentPage = 2 ^ 53 → (step w ev).state.currentPage = 2 ^ 53)) ∧
      (∀ (w : World) (i : Nat) (r : FetchResult),
        (settle i r w).state.currentPage = w.state.currentPage) ∧
      (∀ (w : World) (v : Str), (searchVideos v w).state.currentPage = w.state.currentPage) ∧
      (∀ w : World, w.state.isLoading = true ∨ w.state.hasMoreVideos = false →
        (loadMoreVideos w).state.currentPage = w.state.currentPage ∧
          ∀ t sh c : Int, (handleScroll t sh c w).state.currentPage = w.state.currentPage) ∧
      (∀ (w : World) (t sh c : Int), ¬ (t + c ≥ sh - config.scrollThreshold) →
        (handleScroll t sh c w).state.currentPage = w.state.currentPage) ∧
      ((run [Event.settled 0 (FetchResult.ok (some fullPage))]).state.currentPage = 1 ∧
        (run [Event.settled 0 (FetchResult.ok (some fullPage))]).state.hasMoreVideos = true ∧
        (run [Event.settled 0 (FetchResult.ok (some fullPage)),
          Event.scroll 5000 5000 800]).state.currentPage = 2) := by
  refine ⟨run_currentPage_range, ?_, step_currentPage_changed, ?_,
    fun w i r => settle_currentPage i r w, ?_, ?_, ?_, by decide⟩
  · intro evs ev
    exact (step_currentPage_range (run evs) ev (run_currentPage_range evs)).2
  · intro w ev hg hev
    rw [step_currentPage_trigger w ev hg hev]
    constructor
    · intro hlt
      exact increment_of_lt _ hlt
    · intro heq
      rw [heq]
      exact increment_limit
  · intro w v
    simp [searchVideos]
  · intro w h
    have hguard : (w.state.isLoading || !w.state.hasMoreVideos) = true := by
      rcases h with h | h <;> simp [h]
    refine ⟨by rw [loadMoreVideos_currentPage, if_pos hguard], fun t sh c => ?_⟩
    rw [handleScroll_currentPage, if_pos hguard]
  · intro w t sh c hp
    rw [handleScroll_currentPage]
    split_ifs <;> rfl

/-- C9, counterexample: after a full first page `currentPage` is 1; a load-more trigger is
accepted and its fetch, of page 2, is rejected; `currentPage` is 2 afterwards, not 1. -/
theorem failed_loadMore_keeps_advance :
    (run [Event.settled 0 (FetchResult.ok (some fullPage))]).state.currentPage = 1 ∧
      (run [Event.settled 0 (FetchResult.ok (some fullPage)), Event.loadMore]).pending
        = [⟨Caller.loadMoreVideos, 2⟩] ∧
      (run [Event.settled 0 (FetchResult.ok (some fullPage)), Event.loadMore,
        Event.settled 0 FetchResult.rejected]).state.currentPage = 2 ∧
      (run [Event.settled 0 (FetchResult.ok (some fullPage)), Event.loadMore,
        Event.settled 0 FetchResult.rejected]).state.currentPage
        ≠ (run [Event.settled 0 (FetchResult.ok (some fullPage))]).state.currentPage := by
  decide

/-! ## The filter after a render -/

/-- C10, at the failing input: a search for `zzz` arrives while the first fetch is
outstanding, then the fetch brings one record titled `News`; the query is still `zzz`, the
card of the record is in the list with its `display` never assigned, so it is shown although
`news` does not contain `zzz`. -/
theorem search_during_initial_load :
    (run [Event.input "zzz".toList,
        Event.settled 0 (FetchResult.ok (some [videoTitled "News"]))]).state.searchQuery
        = "zzz".toList ∧
      cards (run [Event.input "zzz".toList,
        Event.settled 0 (FetchResult.ok (some [videoTitled "News"]))]).videoList
        = [("news".toList, Display.unset)] ∧
      Display.unset.isVisible = true ∧
      includes "news".toList "zzz".toList = false ∧
      ¬ FilterApplied (run [Event.input "zzz".toList,
        Event.settled 0 (FetchResult.ok (some [videoTitled "News"]))]) := by
  refine ⟨by decide, by decide, rfl, by decide, ?_⟩
  intro h
  have hc := h ("news".toList, Display.unset) (by decide)
  exact absurd (hc.1 rfl) (by decide)

/-- Every other path keeps the filter applied: a step from a state in which every card is
shown exactly when its title contains the query leads to such a state again, unless the
step is the settlement of the fetch awaited by `initializeApp` and the query is not empty. -/
theorem step_filterApplied (w : World) (ev : Event) (h : FilterApplied w)
    (hq : w.state.searchQuery = [] ∨
      ∀ i r p, ev = Event.settled i r → w.pending.get? i = some p →
        p.caller ≠ Caller.initializeApp) :
    FilterApplied (step w ev) := by
  have hload : FilterApplied (loadMoreVideos w) := by
    unfold loadMoreVideos
    split_ifs
    · exact h
    · intro c hc
      have hsub := setLoadingState_cards_subset _ _ _ c hc
      simpa using h c hsub
  cases ev with
  | scroll t sh c =>
    rw [show step w (Event.scroll t sh c) = handleScroll t sh c w from rfl]
    unfold handleScroll
    split_ifs
    · exact h
    · exact hload
    · exact h
  | loadMore => exact hload
  | input v =>
    intro c hc
    have := filterVideos_cards_visible (trim (toLowerCase v)) w c hc
    simpa [step, searchVideos] using this
  | settled i r =>
    rw [show step w (Event.settled i r) = settle i r w from rfl]
    cases hp : w.pending.get? i with
    | none =>
      rw [settle_none i r w hp]
      exact h
    | some p =>
      rw [settle_some i r w p hp]
      have hr : FilterApplied (fetchVideosResume r { w with pending := w.pending.eraseIdx i }).2 := by
        intro c hc
        have hsub := fetchVideosResume_cards_subset r _ c hc
        simpa using h c hsub
      have hrq : (fetchVideosResume r { w with pending := w.pending.eraseIdx i }).2.state.searchQuery
          = w.state.searchQuery := by simp
      cases hcaller : p.caller with
      | initializeApp =>
        have hq0 : w.state.searchQuery = [] := by
          rcases hq with hq | hq
          · exact hq
          · exact absurd hcaller (hq i r p rfl hp)
        dsimp only
        intro c hc
        have hu := initializeAppResume_cards_unset _ _ c hc
        have hs : (initializeAppResume
            (fetchVideosResume r { w with pending := w.pending.eraseIdx i }).1
            (fetchVideosResume r { w with pending := w.pending.eraseIdx i }).2).state.searchQuery
              = [] := by
          simp [initializeAppResume, hq0]
        rw [hs, hu, includes_nil]
        simp [Display.isVisible]
      | loadMoreVideos =>
        dsimp only
        exact loadMoreVideosResume_filterApplied _ _ hr

/-- After a failure of the first fetch, `initializeApp` goes on to `renderVideos([])`, which
writes the paragraph `No videos found.` over the paragraph of `handleError`. -/
theorem failed_first_page_list :
    (run [Event.settled 0 FetchResult.rejected]).videoList = [Node.emptyMessage] := by
  decide

end VideoListing
